import Mathlib

/-!
Verification development for the qvm compiler front-end
(src/qvm/src/compile/compile.rs, src/qvm/src/compile/schema.rs,
src/qvm/src/schema/mod.rs).

The Rust code is shallowly embedded: constraint cells (`CRef<MType>`) become
indices into an explicit `Store`; fallible code returns `Except CompileErr`;
recursion through the cell graph is fuelled.  Source locations and debug
labels are metadata in the source (identifier equality is by string) and are
dropped from the embedding.
-/

namespace QVM

/-- The closed set of atomic runtime types.  Modelled from the spec (§3):
`crate::types::AtomicType` is outside src/; the spec lists
Null, Bool, Int8/16/32/64, UInt8/16/32/64, Float32/64, Utf8, Date, Time,
Timestamp.  Only decidable equality of atoms is used by the compiler code
under verification. -/
inductive AtomicType where
  | null
  | boolean
  | int8
  | int16
  | int32
  | int64
  | uint8
  | uint16
  | uint32
  | uint64
  | float32
  | float64
  | utf8
  | date
  | time
  | timestamp
  deriving DecidableEq, Repr

/-- A path of identifiers (`ast::Path`); identifiers compare by string. -/
abbrev Path := List String

/-- `MField` from src/qvm/src/compile/schema.rs (lines 25-30): a record field
with a name, a type cell (an index into the cell `Store`) and a nullability
flag.  The identifier's source location is dropped. -/
structure MField where
  name : String
  type_ : Nat
  nullable : Bool
  deriving DecidableEq, Repr

/-- `MType` from src/qvm/src/compile/schema.rs (lines 61-68): atoms, records,
lists, functions and named type variables.  Every sub-type position is a cell
id (`CRef<MType>`), as in the source; `SourceLocation` payloads are dropped. -/
inductive MType where
  | atom (a : AtomicType)
  | record (fields : List MField)
  | list (inner : Nat)
  | fn (args : List MField) (ret : Nat)
  | name (n : String)
  deriving DecidableEq, Repr

/-- The compile error taxonomy (src/qvm/src/compile/error.rs is outside src/;
the constructors and their payloads are those constructed by compile.rs and
schema.rs: `no_such_entry`, `duplicate_entry`, `wrong_kind`, `wrong_type`,
`coercion`, `unimplemented`, `import_error`, `internal`).  `wrongType` keeps
the expected/got monotypes; location payloads and the decl payload of
`wrong_kind` are dropped. -/
inductive CompileErr where
  | noSuchEntry (path : Path)
  | duplicateEntry (path : Path)
  | wrongKind (path : Path) (expected : String)
  | wrongType (expected got : MType)
  | coercion
  | unimplemented (what : String)
  | importError (path : Path) (reason : String)
  | internal (msg : String)
  deriving DecidableEq, Repr

/-- Modelled from the spec (§4.1): the three states of a constraint cell,
matching the `Constrained` variants read by `CRef::<MType>::substitute`
(src/qvm/src/compile/schema.rs lines 394-402): Known, Unknown (debug label
dropped), and a union-find forwarding link. -/
inductive Constrained where
  | known (t : MType)
  | unknown
  | ref (other : Nat)
  deriving DecidableEq, Repr

/-- The heap of constraint cells; a cell id is an index into the list. -/
abbrev Store := List Constrained

/-- Boolean success test on an `Except` result. -/
def isOkE {ε α : Type} : Except ε α → Bool
  | .ok _ => true
  | .error _ => false

instance {ε α : Type} [DecidableEq ε] [DecidableEq α] : DecidableEq (Except ε α) := by
  intro a b
  cases a with
  | ok x =>
    cases b with
    | ok y => exact decidable_of_iff (x = y) (by simp)
    | error f => exact .isFalse (by simp)
  | error e =>
    cases b with
    | ok y => exact .isFalse (by simp)
    | error f => exact decidable_of_iff (e = f) (by simp)

/-- Chase `ref` links to the representative cell of a union-find class
(fuelled; the spec says reads compress the chain, which does not affect the
representative reached). -/
def findRepr : Nat → Store → Nat → Option Nat
  | 0, _, _ => none
  | fuel + 1, st, c =>
    match st.get? c with
    | some (.ref r) => findRepr fuel st r
    | some _ => some c
    | none => none

mutual

/-- Modelled from the spec (§4.1): `unify` on two cells (`CRef::unify`,
src/qvm/src/compile/inference.rs is outside src/).  Between two Unknowns the
younger (larger id) is linked to the older; between Unknown and Known the
Unknown is filled by linking it to the Known cell; between two Knowns the
monotypes are unified structurally via `MType::unify`.  Unifying a cell with
itself succeeds without a write. -/
def unifyC : Nat → Store → Nat → Nat → Except CompileErr Store
  | 0, _, _, _ => .error (.internal "fuel exhausted")
  | fuel + 1, st, a, b =>
    match findRepr (st.length + 1) st a, findRepr (st.length + 1) st b with
    | some ra, some rb =>
      if ra = rb then .ok st
      else
        match st.get? ra, st.get? rb with
        | some .unknown, some .unknown =>
          .ok (if ra < rb then st.set rb (.ref ra) else st.set ra (.ref rb))
        | some .unknown, some (.known _) => .ok (st.set ra (.ref rb))
        | some (.known _), some .unknown => .ok (st.set rb (.ref ra))
        | some (.known s), some (.known t) => unifyM fuel st s t
        | _, _ => .error (.internal "dangling cell")
    | _, _ => .error (.internal "dangling cell")

/-- `<MType as Constrainable>::unify` (src/qvm/src/compile/schema.rs lines
289-338).  Note the source's Record arm calls `ltype.unify(rtype)` with
`ltype` bound to the *other* record, so the record arguments are swapped,
while the Fn arm unifies `largs` (self) against `rargs` (other) directly. -/
def unifyM : Nat → Store → MType → MType → Except CompileErr Store
  | 0, _, _, _ => .error (.internal "fuel exhausted")
  | _ + 1, st, .atom la, other =>
    match other with
    | .atom ra => if la = ra then .ok st else .error (.wrongType (.atom la) (.atom ra))
    | _ => .error (.wrongType (.atom la) other)
  | fuel + 1, st, .record sfields, other =>
    match other with
    | .record ofields => unifyRecord fuel st ofields sfields
    | _ => .error (.wrongType (.record sfields) other)
  | fuel + 1, st, .list linner, other =>
    match other with
    | .list rinner => unifyC fuel st linner rinner
    | _ => .error (.wrongType (.list linner) other)
  | fuel + 1, st, .fn largs lret, other =>
    match other with
    | .fn rargs rret =>
      match unifyRecord fuel st largs rargs with
      | .ok st' => unifyC fuel st' lret rret
      | .error e => .error e
    | _ => .error (.wrongType (.fn largs lret) other)
  | _ + 1, _, .name n, _ =>
    .error (.internal ("Encountered free type variable: " ++ n))

/-- `<MRecordType as Constrainable>::unify` (src/qvm/src/compile/schema.rs
lines 369-392): equal length, then positionally equal names, equal
nullability, pairwise cell unification; every mismatch reports
`wrong_type(Record(self), Record(other))`. -/
def unifyRecord : Nat → Store → List MField → List MField → Except CompileErr Store
  | fuel, st, sfields, ofields =>
    if sfields.length ≠ ofields.length then
      .error (.wrongType (.record sfields) (.record ofields))
    else
      unifyFieldsLoop fuel st sfields ofields sfields ofields

/-- The `for i in 0..self.fields.len()` loop of `MRecordType::unify`; `e1`/`e2`
carry the full field lists for the error payload. -/
def unifyFieldsLoop : Nat → Store → List MField → List MField → List MField →
    List MField → Except CompileErr Store
  | _, st, _, _, [], _ => .ok st
  | _, st, _, _, _ :: _, [] => .ok st
  | 0, _, _, _, _ :: _, _ :: _ => .error (.internal "fuel exhausted")
  | fuel + 1, st, e1, e2, f :: fs, g :: gs =>
    if f.name ≠ g.name then .error (.wrongType (.record e1) (.record e2))
    else if f.nullable ≠ g.nullable then .error (.wrongType (.record e1) (.record e2))
    else
      match unifyC fuel st f.type_ g.type_ with
      | .ok st' => unifyFieldsLoop fuel st' e1 e2 fs gs
      | .error e => .error e

end

/-- Sequential unification of a list of cell pairs, threading the store: the
cell work performed by the loop of `MRecordType::unify`, separated from its
pure name/nullability checks. -/
def unifyCells : Nat → Store → List (Nat × Nat) → Except CompileErr Store
  | _, st, [] => .ok st
  | 0, _, _ :: _ => .error (.internal "fuel exhausted")
  | fuel + 1, st, (a, b) :: rest =>
    match unifyC fuel st a b with
    | .ok st' => unifyCells fuel st' rest
    | .error e => .error e

theorem unifyFieldsLoop_iff (fs : List MField) : ∀ (gs : List MField) (fuel : Nat) (st : Store)
    (e1 e2 : List MField),
    isOkE (unifyFieldsLoop fuel st e1 e2 fs gs) = true ↔
      ((∀ p ∈ fs.zip gs, p.1.name = p.2.name ∧ p.1.nullable = p.2.nullable) ∧
        isOkE (unifyCells fuel st ((fs.zip gs).map fun p => (p.1.type_, p.2.type_))) = true) := by
  induction fs with
  | nil =>
    intro gs fuel st e1 e2
    simp [unifyFieldsLoop, unifyCells, isOkE]
  | cons f fs ih =>
    intro gs fuel st e1 e2
    cases gs with
    | nil => simp [unifyFieldsLoop, unifyCells, isOkE]
    | cons g gs =>
      have hzip : (f :: fs).zip (g :: gs) = (f, g) :: fs.zip gs := rfl
      rw [hzip, List.map_cons]
      cases fuel with
      | zero =>
        constructor
        · intro h
          exact absurd h (by simp [unifyFieldsLoop, isOkE])
        · rintro ⟨-, hcells⟩
          exact absurd hcells (by simp [unifyCells, isOkE])
      | succ fuel =>
        by_cases hname : f.name = g.name
        · by_cases hnull : f.nullable = g.nullable
          · have hl : unifyFieldsLoop (fuel + 1) st e1 e2 (f :: fs) (g :: gs) =
                match unifyC fuel st f.type_ g.type_ with
                | .ok st' => unifyFieldsLoop fuel st' e1 e2 fs gs
                | .error e => .error e := by
              simp [unifyFieldsLoop, hname, hnull]
            have hr : unifyCells (fuel + 1) st
                ((f.type_, g.type_) :: (fs.zip gs).map fun p => (p.1.type_, p.2.type_)) =
                match unifyC fuel st f.type_ g.type_ with
                | .ok st' => unifyCells fuel st' ((fs.zip gs).map fun p => (p.1.type_, p.2.type_))
                | .error e => .error e := by
              simp [unifyCells]
            rw [hl, hr]
            cases hC : unifyC fuel st f.type_ g.type_ with
            | ok st' =>
              rw [ih gs fuel st' e1 e2]
              constructor
              · rintro ⟨hall, hcells⟩
                refine ⟨?_, hcells⟩
                intro p hp
                rcases List.mem_cons.mp hp with h' | h'
                · subst h'
                  exact ⟨hname, hnull⟩
                · exact hall p h'
              · rintro ⟨hall, hcells⟩
                exact ⟨fun p hp => hall p (List.mem_cons_of_mem _ hp), hcells⟩
            | error e =>
              simp [isOkE]
          · have hl : unifyFieldsLoop (fuel + 1) st e1 e2 (f :: fs) (g :: gs) =
                .error (.wrongType (.record e1) (.record e2)) := by
              simp [unifyFieldsLoop, hname, hnull]
            rw [hl]
            constructor
            · intro h
              exact absurd h (by simp [isOkE])
            · rintro ⟨hall, -⟩
              exact absurd (hall (f, g) (List.mem_cons_self _ _)).2 hnull
        · have hl : unifyFieldsLoop (fuel + 1) st e1 e2 (f :: fs) (g :: gs) =
              .error (.wrongType (.record e1) (.record e2)) := by
            simp [unifyFieldsLoop, hname]
          rw [hl]
          constructor
          · intro h
            exact absurd h (by simp [isOkE])
          · rintro ⟨hall, -⟩
            exact absurd (hall (f, g) (List.mem_cons_self _ _)).1 hname

theorem zip_names_of_eq : ∀ (xs ys : List MField), xs.length = ys.length →
    (∀ p ∈ xs.zip ys, p.1.name = p.2.name ∧ p.1.nullable = p.2.nullable) →
    xs.map MField.name = ys.map MField.name := by
  intro xs
  induction xs with
  | nil =>
    intro ys h _
    cases ys with
    | nil => rfl
    | cons y ys => simp at h
  | cons x xs ih =>
    intro ys h hall
    cases ys with
    | nil => simp at h
    | cons y ys =>
      simp only [List.map_cons, List.cons.injEq]
      constructor
      · exact (hall (x, y) (by simp)).1
      · exact ih ys (by simpa using h) (fun p hp => hall p (by simp [hp]))

/-- C2: unification of two record monotypes succeeds iff the field lists have
equal length and, positionally, the fields carry string-equal names and equal
nullability flags and their type cells unify (sequentially, threading the
store); consequently two records whose field-name sequences differ never
unify, and a concrete pair of field-reordered records fails with `WrongType`.
(The source's Record arm swaps the two records before calling
`MRecordType::unify`, so the pairs below are `(other, self)` pairs.) -/
theorem c2_record_unification :
    (∀ (fuel : Nat) (st : Store) (fs gs : List MField),
      isOkE (unifyM (fuel + 1) st (.record fs) (.record gs)) = true ↔
        (gs.length = fs.length ∧
          (∀ p ∈ gs.zip fs, p.1.name = p.2.name ∧ p.1.nullable = p.2.nullable) ∧
          isOkE (unifyCells fuel st ((gs.zip fs).map fun p => (p.1.type_, p.2.type_))) = true)) ∧
    (∀ (fuel : Nat) (st : Store) (fs gs : List MField),
      fs.map MField.name ≠ gs.map MField.name →
      isOkE (unifyM (fuel + 1) st (.record fs) (.record gs)) = false) ∧
    (unifyM 5 [Constrained.known (.atom .int32), Constrained.known (.atom .utf8)]
        (.record [⟨"a", 0, true⟩, ⟨"b", 1, true⟩])
        (.record [⟨"b", 1, true⟩, ⟨"a", 0, true⟩]) =
      .error (.wrongType (.record [⟨"b", 1, true⟩, ⟨"a", 0, true⟩])
        (.record [⟨"a", 0, true⟩, ⟨"b", 1, true⟩]))) := by
  have hiff : ∀ (fuel : Nat) (st : Store) (fs gs : List MField),
      isOkE (unifyM (fuel + 1) st (.record fs) (.record gs)) = true ↔
        (gs.length = fs.length ∧
          (∀ p ∈ gs.zip fs, p.1.name = p.2.name ∧ p.1.nullable = p.2.nullable) ∧
          isOkE (unifyCells fuel st ((gs.zip fs).map fun p => (p.1.type_, p.2.type_))) = true) := by
    intro fuel st fs gs
    have hM : unifyM (fuel + 1) st (.record fs) (.record gs) = unifyRecord fuel st gs fs := by
      simp [unifyM]
    rw [hM, unifyRecord]
    by_cases hlen : gs.length = fs.length
    · rw [if_neg (by simp [hlen])]
      rw [unifyFieldsLoop_iff]
      simp [hlen]
    · rw [if_pos (by simpa using hlen)]
      simp [isOkE, hlen]
  refine ⟨hiff, ?hB, ?hC⟩
  case hC =>
    simp [unifyM, unifyRecord, unifyFieldsLoop]
  intro fuel st fs gs hne
  by_contra h
  have hok : isOkE (unifyM (fuel + 1) st (.record fs) (.record gs)) = true := by
    cases hv : isOkE (unifyM (fuel + 1) st (.record fs) (.record gs)) with
    | false => exact absurd hv h
    | true => rfl
  obtain ⟨hlen, hall, _⟩ := (hiff fuel st fs gs).mp hok
  exact hne (zip_names_of_eq gs fs hlen hall).symm

/-- Witness for C2: two single-field records with different field names fail to
unify. -/
theorem c2_record_unification_witness :
    ([⟨"a", 0, true⟩] : List MField).map MField.name ≠
        ([⟨"b", 0, true⟩] : List MField).map MField.name ∧
      isOkE (unifyM 3 [] (.record [⟨"a", 0, true⟩]) (.record [⟨"b", 0, true⟩])) = false :=
  ⟨by decide, c2_record_unification.2.1 2 [] [⟨"a", 0, true⟩] [⟨"b", 0, true⟩] (by decide)⟩

/-- Association-list lookup, modelling `BTreeMap::get`. -/
def lookupA {α β : Type} [DecidableEq α] : List (α × β) → α → Option β
  | [], _ => none
  | (k, v) :: rest, key => if k = key then some v else lookupA rest key

/-- `mkcref`: allocate a fresh cell by appending to the store; returns its id. -/
def alloc (st : Store) (c : Constrained) : Nat × Store := (st.length, st ++ [c])

mutual

/-- `CRef::<MType>::substitute` (src/qvm/src/compile/schema.rs lines 394-402):
Known cells substitute their monotype, Unknown cells are returned unchanged,
forwarding links are followed. -/
def substC : Nat → Store → List (String × Nat) → Nat → Except CompileErr (Nat × Store)
  | 0, _, _, _ => .error (.internal "fuel exhausted")
  | fuel + 1, st, env, c =>
    match st.get? c with
    | some (.known t) => substM fuel st env t
    | some .unknown => .ok (c, st)
    | some (.ref r) => substC fuel st env r
    | none => .error (.internal "dangling cell")

/-- `MType::substitute` (src/qvm/src/compile/schema.rs lines 149-190): rebuild
the monotype in freshly allocated cells; `Name(v)` is replaced by `env[v]` and
an unbound name yields `NoSuchEntry`. -/
def substM : Nat → Store → List (String × Nat) → MType → Except CompileErr (Nat × Store)
  | 0, _, _, _ => .error (.internal "fuel exhausted")
  | _ + 1, st, _, .atom a => .ok (alloc st (.known (.atom a)))
  | fuel + 1, st, env, .record fields =>
    match substFields fuel st env fields with
    | .ok (fields', st') => .ok (alloc st' (.known (.record fields')))
    | .error e => .error e
  | fuel + 1, st, env, .list inner =>
    match substC fuel st env inner with
    | .ok (c', st') => .ok (alloc st' (.known (.list c')))
    | .error e => .error e
  | fuel + 1, st, env, .fn args ret =>
    match substFields fuel st env args with
    | .ok (args', st') =>
      match substC fuel st' env ret with
      | .ok (r', st'') => .ok (alloc st'' (.known (.fn args' r')))
      | .error e => .error e
    | .error e => .error e
  | _ + 1, st, env, .name n =>
    match lookupA env n with
    | some c => .ok (c, st)
    | none => .error (.noSuchEntry [n])

/-- The field-list traversal of `MType::substitute` for records and function
arguments: substitute each field's type cell, keeping name and nullability. -/
def substFields : Nat → Store → List (String × Nat) → List MField →
    Except CompileErr (List MField × Store)
  | _, st, _, [] => .ok ([], st)
  | 0, _, _, _ :: _ => .error (.internal "fuel exhausted")
  | fuel + 1, st, env, f :: fs =>
    match substC fuel st env f.type_ with
    | .ok (c', st') =>
      match substFields fuel st' env fs with
      | .ok (fs', st'') => .ok (⟨f.name, c', f.nullable⟩ :: fs', st'')
      | .error e => .error e
    | .error e => .error e

end

/-- Pure monotype trees: the value a cell graph denotes once all cells are
resolved.  Used to state "structurally equal up to cell allocation". -/
inductive PMType where
  | atom (a : AtomicType)
  | record (fields : List (String × PMType × Bool))
  | list (inner : PMType)
  | fn (args : List (String × PMType × Bool)) (ret : PMType)
  | name (n : String)

mutual

/-- A pure monotype tree is ground when it contains no `Name`. -/
def PMType.nameFree : PMType → Bool
  | .atom _ => true
  | .record fields => nameFreeFields fields
  | .list inner => inner.nameFree
  | .fn args ret => nameFreeFields args && ret.nameFree
  | .name _ => false

/-- `nameFree` over a field list. -/
def nameFreeFields : List (String × PMType × Bool) → Bool
  | [] => true
  | f :: fs => f.2.1.nameFree && nameFreeFields fs

end

mutual

/-- Read a cell back to the pure monotype tree it denotes; `none` when the
cell graph contains an Unknown cell (or is dangling/cyclic beyond the fuel). -/
def resolveC : Nat → Store → Nat → Option PMType
  | 0, _, _ => none
  | fuel + 1, st, c =>
    match st.get? c with
    | some (.known t) => resolveM fuel st t
    | some .unknown => none
    | some (.ref r) => resolveC fuel st r
    | none => none

/-- Read a monotype back to a pure tree by resolving its cells. -/
def resolveM : Nat → Store → MType → Option PMType
  | 0, _, _ => none
  | _ + 1, _, .atom a => some (.atom a)
  | fuel + 1, st, .record fields => (resolveFields fuel st fields).map PMType.record
  | fuel + 1, st, .list inner => (resolveC fuel st inner).map PMType.list
  | fuel + 1, st, .fn args ret =>
    match resolveFields fuel st args, resolveC fuel st ret with
    | some args', some ret' => some (.fn args' ret')
    | _, _ => none
  | _ + 1, _, .name n => some (.name n)

/-- `resolveC` over a field list. -/
def resolveFields : Nat → Store → List MField → Option (List (String × PMType × Bool))
  | _, _, [] => some []
  | 0, _, _ :: _ => none
  | fuel + 1, st, f :: fs =>
    match resolveC fuel st f.type_, resolveFields fuel st fs with
    | some t, some rest => some ((f.name, t, f.nullable) :: rest)
    | _, _ => none

end

theorem get?_append_ext {st : Store} {ext : Store} {i : Nat} {x : Constrained}
    (h : st.get? i = some x) : (st ++ ext).get? i = some x := by
  rw [List.get?_append (List.get?_eq_some.mp h).1]
  exact h

theorem resolve_mono_ext : ∀ (fuel : Nat) (st ext : Store),
    (∀ c pt, resolveC fuel st c = some pt → resolveC fuel (st ++ ext) c = some pt) ∧
    (∀ t pt, resolveM fuel st t = some pt → resolveM fuel (st ++ ext) t = some pt) ∧
    (∀ fs pts, resolveFields fuel st fs = some pts →
      resolveFields fuel (st ++ ext) fs = some pts) := by
  intro fuel
  induction fuel with
  | zero =>
    intro st ext
    refine ⟨?_, ?_, ?_⟩
    · intro c pt h
      simp [resolveC] at h
    · intro t pt h
      simp [resolveM] at h
    · intro fs pts h
      cases fs with
      | nil => simpa [resolveFields] using h
      | cons f fs => simp [resolveFields] at h
  | succ fuel ih =>
    intro st ext
    obtain ⟨ihC, ihM, ihF⟩ := ih st ext
    refine ⟨?_, ?_, ?_⟩
    · intro c pt h
      rw [resolveC] at h ⊢
      cases hg : st.get? c with
      | none => rw [hg] at h; exact absurd h (by simp)
      | some v =>
        rw [hg] at h
        rw [get?_append_ext hg]
        cases v with
        | known t => exact ihM t pt h
        | unknown => exact absurd h (by simp)
        | ref r => exact ihC r pt h
    · intro t pt h
      cases t with
      | atom a => simpa [resolveM] using h
      | record fields =>
        rw [resolveM] at h ⊢
        obtain ⟨pts, hpts, rfl⟩ := Option.map_eq_some'.mp h
        rw [ihF fields pts hpts]
        rfl
      | list inner =>
        rw [resolveM] at h ⊢
        obtain ⟨pt', hpt', rfl⟩ := Option.map_eq_some'.mp h
        rw [ihC inner pt' hpt']
        rfl
      | fn args ret =>
        rw [resolveM] at h ⊢
        cases hA : resolveFields fuel st args with
        | none => rw [hA] at h; exact absurd h (by simp)
        | some args' =>
          cases hR : resolveC fuel st ret with
          | none => rw [hA, hR] at h; exact absurd h (by simp)
          | some ret' =>
            rw [hA, hR] at h
            rw [ihF args args' hA, ihC ret ret' hR]
            exact h
      | name n => simpa [resolveM] using h
    · intro fs pts h
      cases fs with
      | nil => simpa [resolveFields] using h
      | cons f fs =>
        rw [resolveFields] at h ⊢
        cases hT : resolveC fuel st f.type_ with
        | none => rw [hT] at h; exact absurd h (by simp)
        | some t =>
          cases hR : resolveFields fuel st fs with
          | none => rw [hT, hR] at h; exact absurd h (by simp)
          | some rest =>
            rw [hT, hR] at h
            rw [ihC f.type_ t hT, ihF fs rest hR]
            exact h

theorem resolve_succ_mono : ∀ (fuel : Nat) (st : Store),
    (∀ c pt, resolveC fuel st c = some pt → resolveC (fuel + 1) st c = some pt) ∧
    (∀ t pt, resolveM fuel st t = some pt → resolveM (fuel + 1) st t = some pt) ∧
    (∀ fs pts, resolveFields fuel st fs = some pts →
      resolveFields (fuel + 1) st fs = some pts) := by
  intro fuel
  induction fuel with
  | zero =>
    intro st
    refine ⟨?_, ?_, ?_⟩
    · intro c pt h
      simp [resolveC] at h
    · intro t pt h
      simp [resolveM] at h
    · intro fs pts h
      cases fs with
      | nil => simpa [resolveFields] using h
      | cons f fs => simp [resolveFields] at h
  | succ fuel ih =>
    intro st
    obtain ⟨ihC, ihM, ihF⟩ := ih st
    refine ⟨?_, ?_, ?_⟩
    · intro c pt h
      rw [resolveC] at h
      rw [resolveC]
      cases hg : st.get? c with
      | none => rw [hg] at h; exact absurd h (by simp)
      | some v =>
        rw [hg] at h
        cases v with
        | known t => exact ihM t pt h
        | unknown => exact absurd h (by simp)
        | ref r => exact ihC r pt h
    · intro t pt h
      cases t with
      | atom a => simpa [resolveM] using h
      | record fields =>
        rw [resolveM] at h
        rw [resolveM]
        obtain ⟨pts, hpts, rfl⟩ := Option.map_eq_some'.mp h
        rw [ihF fields pts hpts]
        rfl
      | list inner =>
        rw [resolveM] at h
        rw [resolveM]
        obtain ⟨pt', hpt', rfl⟩ := Option.map_eq_some'.mp h
        rw [ihC inner pt' hpt']
        rfl
      | fn args ret =>
        rw [resolveM] at h
        rw [resolveM]
        cases hA : resolveFields fuel st args with
        | none => rw [hA] at h; exact absurd h (by simp)
        | some args' =>
          cases hR : resolveC fuel st ret with
          | none => rw [hA, hR] at h; exact absurd h (by simp)
          | some ret' =>
            rw [hA, hR] at h
            rw [ihF args args' hA, ihC ret ret' hR]
            exact h
      | name n => simpa [resolveM] using h
    · intro fs pts h
      cases fs with
      | nil => simpa [resolveFields] using h
      | cons f fs =>
        rw [resolveFields] at h
        rw [resolveFields]
        cases hT : resolveC fuel st f.type_ with
        | none => rw [hT] at h; exact absurd h (by simp)
        | some t =>
          cases hR : resolveFields fuel st fs with
          | none => rw [hT, hR] at h; exact absurd h (by simp)
          | some rest =>
            rw [hT, hR] at h
            rw [ihC f.type_ t hT, ihF fs rest hR]
            exact h

theorem resolveC_fuel_mono {f1 f2 : Nat} (hle : f1 ≤ f2) {st : Store} {c : Nat} {pt : PMType}
    (h : resolveC f1 st c = some pt) : resolveC f2 st c = some pt := by
  induction f2, hle using Nat.le_induction with
  | base => exact h
  | succ n hn ih => exact (resolve_succ_mono n st).1 c pt ih

theorem resolveFields_fuel_mono {f1 f2 : Nat} (hle : f1 ≤ f2) {st : Store}
    {fs : List MField} {pts : List (String × PMType × Bool)}
    (h : resolveFields f1 st fs = some pts) : resolveFields f2 st fs = some pts := by
  induction f2, hle using Nat.le_induction with
  | base => exact h
  | succ n hn ih => exact (resolve_succ_mono n st).2.2 fs pts ih

theorem subst_ground : ∀ fuel : Nat,
    (∀ (st : Store) (env : List (String × Nat)) (c : Nat) (pt : PMType),
      resolveC fuel st c = some pt → pt.nameFree = true →
      ∃ c2 st2, substC fuel st env c = .ok (c2, st2) ∧ (∃ ext, st2 = st ++ ext) ∧
        ∃ g, resolveC g st2 c2 = some pt) ∧
    (∀ (st : Store) (env : List (String × Nat)) (t : MType) (pt : PMType),
      resolveM fuel st t = some pt → pt.nameFree = true →
      ∃ c2 st2, substM fuel st env t = .ok (c2, st2) ∧ (∃ ext, st2 = st ++ ext) ∧
        ∃ g, resolveC g st2 c2 = some pt) ∧
    (∀ (st : Store) (env : List (String × Nat)) (fs : List MField)
      (pts : List (String × PMType × Bool)),
      resolveFields fuel st fs = some pts → nameFreeFields pts = true →
      ∃ fs2 st2, substFields fuel st env fs = .ok (fs2, st2) ∧ (∃ ext, st2 = st ++ ext) ∧
        ∃ g, resolveFields g st2 fs2 = some pts) := by
  intro fuel
  induction fuel with
  | zero =>
    refine ⟨?_, ?_, ?_⟩
    · intro st env c pt h _
      simp [resolveC] at h
    · intro st env t pt h _
      simp [resolveM] at h
    · intro st env fs pts h _
      cases fs with
      | nil =>
        have hpts : pts = [] := by simpa [resolveFields, eq_comm] using h
        subst hpts
        exact ⟨[], st, by rw [substFields], ⟨[], by simp⟩, 0, by rw [resolveFields]⟩
      | cons f fs => simp [resolveFields] at h
  | succ fuel ih =>
    obtain ⟨ihC, ihM, ihF⟩ := ih
    refine ⟨?_, ?_, ?_⟩
    · intro st env c pt h hnf
      rw [resolveC] at h
      cases hg : st.get? c with
      | none => rw [hg] at h; exact absurd h (by simp)
      | some v =>
        rw [hg] at h
        cases v with
        | known t =>
          obtain ⟨c2, st2, hs, hext, hres⟩ := ihM st env t pt h hnf
          exact ⟨c2, st2, by rw [substC, hg]; exact hs, hext, hres⟩
        | unknown => exact absurd h (by simp)
        | ref r =>
          obtain ⟨c2, st2, hs, hext, hres⟩ := ihC st env r pt h hnf
          exact ⟨c2, st2, by rw [substC, hg]; exact hs, hext, hres⟩
    · intro st env t pt h hnf
      cases t with
      | atom a =>
        have hpt : pt = .atom a := by
          rw [resolveM] at h
          exact (Option.some.injEq _ _ ▸ h.symm)
        subst hpt
        refine ⟨st.length, st ++ [Constrained.known (.atom a)],
          by rw [substM]; rfl, ⟨[Constrained.known (.atom a)], rfl⟩, 2, ?_⟩
        rw [resolveC, List.get?_concat_length]
        simp [resolveM]
      | record fields =>
        rw [resolveM] at h
        obtain ⟨pts, hpts, hpt⟩ := Option.map_eq_some'.mp h
        subst hpt
        rw [PMType.nameFree] at hnf
        obtain ⟨fs2, st2, hsf, ⟨e, he⟩, g, hg⟩ := ihF st env fields pts hpts hnf
        refine ⟨st2.length, st2 ++ [Constrained.known (.record fs2)],
          by rw [substM, hsf]; rfl,
          ⟨e ++ [Constrained.known (.record fs2)], by rw [he, List.append_assoc]⟩,
          g + 2, ?_⟩
        have hres := (resolve_mono_ext g st2 [Constrained.known (.record fs2)]).2.2 fs2 pts hg
        rw [resolveC, List.get?_concat_length]
        simp [resolveM, hres]
      | list inner =>
        rw [resolveM] at h
        obtain ⟨pt', hpt', hpt⟩ := Option.map_eq_some'.mp h
        subst hpt
        rw [PMType.nameFree] at hnf
        obtain ⟨c2, st2, hsc, ⟨e, he⟩, g, hg⟩ := ihC st env inner pt' hpt' hnf
        refine ⟨st2.length, st2 ++ [Constrained.known (.list c2)],
          by rw [substM, hsc]; rfl,
          ⟨e ++ [Constrained.known (.list c2)], by rw [he, List.append_assoc]⟩,
          g + 2, ?_⟩
        have hres := (resolve_mono_ext g st2 [Constrained.known (.list c2)]).1 c2 pt' hg
        rw [resolveC, List.get?_concat_length]
        simp [resolveM, hres]
      | fn args ret =>
        rw [resolveM] at h
        cases hA : resolveFields fuel st args with
        | none => rw [hA] at h; exact absurd h (by simp)
        | some args' =>
          cases hR : resolveC fuel st ret with
          | none => rw [hA, hR] at h; exact absurd h (by simp)
          | some ret' =>
            rw [hA, hR] at h
            have hpt : pt = .fn args' ret' := by simpa [eq_comm] using h
            subst hpt
            rw [PMType.nameFree, Bool.and_eq_true] at hnf
            obtain ⟨hnfA, hnfR⟩ := hnf
            obtain ⟨fs2, st2, hsf, ⟨e1, he1⟩, g1, hg1⟩ := ihF st env args args' hA hnfA
            have hR2 : resolveC fuel st2 ret = some ret' := by
              rw [he1]
              exact (resolve_mono_ext fuel st e1).1 ret ret' hR
            obtain ⟨r2, st3, hsc, ⟨e2, he2⟩, g2, hg2⟩ := ihC st2 env ret ret' hR2 hnfR
            have hg1' : resolveFields (max g1 g2) st3 fs2 = some args' := by
              refine resolveFields_fuel_mono (Nat.le_max_left _ _) ?_
              rw [he2]
              exact (resolve_mono_ext g1 st2 e2).2.2 fs2 args' hg1
            have hg2' : resolveC (max g1 g2) st3 r2 = some ret' :=
              resolveC_fuel_mono (Nat.le_max_right _ _) hg2
            refine ⟨st3.length, st3 ++ [Constrained.known (.fn fs2 r2)],
              by simp [substM, hsf, hsc, alloc],
              ⟨e1 ++ (e2 ++ [Constrained.known (.fn fs2 r2)]), by
                rw [he2, he1, List.append_assoc, List.append_assoc]⟩,
              max g1 g2 + 2, ?_⟩
            have hres1 := (resolve_mono_ext (max g1 g2) st3
              [Constrained.known (.fn fs2 r2)]).2.2 fs2 args' hg1'
            have hres2 := (resolve_mono_ext (max g1 g2) st3
              [Constrained.known (.fn fs2 r2)]).1 r2 ret' hg2'
            rw [resolveC, List.get?_concat_length]
            simp [resolveM, hres1, hres2]
      | name n =>
        have hpt : pt = .name n := by
          rw [resolveM] at h
          exact (Option.some.injEq _ _ ▸ h.symm)
        subst hpt
        simp [PMType.nameFree] at hnf
    · intro st env fs pts h hnf
      cases fs with
      | nil =>
        have hpts : pts = [] := by simpa [resolveFields, eq_comm] using h
        subst hpts
        exact ⟨[], st, by rw [substFields], ⟨[], by simp⟩, 1, by rw [resolveFields]⟩
      | cons f fs =>
        rw [resolveFields] at h
        cases hT : resolveC fuel st f.type_ with
        | none => rw [hT] at h; exact absurd h (by simp)
        | some t =>
          cases hR : resolveFields fuel st fs with
          | none => rw [hT, hR] at h; exact absurd h (by simp)
          | some rest =>
            rw [hT, hR] at h
            have hpts : pts = (f.name, t, f.nullable) :: rest := by simpa [eq_comm] using h
            subst hpts
            rw [nameFreeFields, Bool.and_eq_true] at hnf
            obtain ⟨hnfT, hnfR⟩ := hnf
            obtain ⟨c2, st2, hsc, ⟨e1, he1⟩, g1, hg1⟩ := ihC st env f.type_ t hT hnfT
            have hR2 : resolveFields fuel st2 fs = some rest := by
              rw [he1]
              exact (resolve_mono_ext fuel st e1).2.2 fs rest hR
            obtain ⟨fs2, st3, hsf, ⟨e2, he2⟩, g2, hg2⟩ := ihF st2 env fs rest hR2 hnfR
            have hg1' : resolveC (max g1 g2) st3 c2 = some t := by
              refine resolveC_fuel_mono (Nat.le_max_left _ _) ?_
              rw [he2]
              exact (resolve_mono_ext g1 st2 e2).1 c2 t hg1
            have hg2' : resolveFields (max g1 g2) st3 fs2 = some rest :=
              resolveFields_fuel_mono (Nat.le_max_right _ _) hg2
            refine ⟨⟨f.name, c2, f.nullable⟩ :: fs2, st3,
              by simp [substFields, hsc, hsf], ⟨e1 ++ e2, by rw [he2, he1, List.append_assoc]⟩,
              max g1 g2 + 1, ?_⟩
            simp [resolveFields, hg1', hg2']

/-- C7: substitution replaces each `Name(v)` with `env[v]` and fails with
`NoSuchEntry` when `v` is absent from the environment; and on a ground
monotype (one whose cells all resolve, to a pure tree with no `Name`)
substitution with any environment succeeds, only appends fresh cells to the
store, and returns a cell that resolves to the same pure tree — the identity
up to cell allocation. -/
theorem c7_substitute_ground :
    (∀ (fuel : Nat) (st : Store) (env : List (String × Nat)) (n : String),
      substM (fuel + 1) st env (.name n) =
        match lookupA env n with
        | some c => .ok (c, st)
        | none => .error (.noSuchEntry [n])) ∧
    (∀ (fuel : Nat) (st : Store) (env : List (String × Nat)) (t : MType) (pt : PMType),
      resolveM fuel st t = some pt → pt.nameFree = true →
      ∃ c2 st2, substM fuel st env t = .ok (c2, st2) ∧ (∃ ext, st2 = st ++ ext) ∧
        ∃ g, resolveC g st2 c2 = some pt) := by
  constructor
  · intro fuel st env n
    rw [substM]
  · intro fuel st env t pt h hnf
    exact (subst_ground fuel).2.1 st env t pt h hnf

/-- Witness for C7: a one-field record over a known `Float64` cell is ground
and substitution under the empty environment reproduces it up to allocation. -/
theorem c7_substitute_ground_witness :
    resolveM 4 [Constrained.known (.atom .float64)] (.record [⟨"x", 0, true⟩]) =
        some (.record [("x", .atom .float64, true)]) ∧
      (PMType.record [("x", .atom .float64, true)]).nameFree = true ∧
      ∃ c2 st2,
        substM 4 [Constrained.known (.atom .float64)] [] (.record [⟨"x", 0, true⟩]) =
            .ok (c2, st2) ∧
          (∃ ext, st2 = [Constrained.known (.atom .float64)] ++ ext) ∧
          ∃ g, resolveC g st2 c2 = some (.record [("x", .atom .float64, true)]) :=
  ⟨rfl, rfl, c7_substitute_ground.2 4 _ [] _ _ rfl rfl⟩

/-- `sqlast::Ident`: a value with an optional quote style.  The SQL AST is an
external collaborator (spec §1, "consumed as opaque trees"); the model below
covers the constructors and fields the compiler reads or builds. -/
structure SqlIdent where
  value : String
  quoteStyle : Option Char
  deriving DecidableEq, Repr

mutual

/-- `sqlast::Expr` (subset; remaining constructors of the external AST are
irrelevant to `as_expr`/`as_query`). -/
inductive SqlExpr where
  | identifier (i : SqlIdent)
  | compoundIdentifier (ids : List SqlIdent)
  | function (f : SqlFunction)
  | subquery (q : SqlQuery)
  | binaryOp (left : SqlExpr) (op : String) (right : SqlExpr)
  | value (v : String)

/-- `sqlast::Function`: name, args, over, distinct, special. -/
inductive SqlFunction where
  | mk (name : List SqlIdent) (args : List SqlFunctionArg) (over : Option Unit)
      (distinct : Bool) (special : Bool)

/-- `sqlast::FunctionArg`. -/
inductive SqlFunctionArg where
  | unnamed (e : SqlFunctionArgExpr)
  | named (n : SqlIdent) (e : SqlFunctionArgExpr)

/-- `sqlast::FunctionArgExpr`. -/
inductive SqlFunctionArgExpr where
  | expr (e : SqlExpr)
  | wildcard

/-- `sqlast::Query`: with, body, order_by, limit, offset, fetch, lock (the
fields never populated by this code are typed `Unit`). -/
inductive SqlQuery where
  | mk (withCte : Option Unit) (body : SqlSetExpr) (orderBy : List Unit)
      (limit : Option SqlExpr) (offset : Option Unit) (fetch : Option Unit)
      (lock : Option Unit)

/-- `sqlast::SetExpr` (subset). -/
inductive SqlSetExpr where
  | select (s : SqlSelect)
  | other

/-- `sqlast::Select`: distinct, top, projection, into, from, lateral_views,
selection, group_by, cluster_by, distribute_by, sort_by, having, qualify. -/
inductive SqlSelect where
  | mk (distinct : Bool) (top : Option Unit) (projection : List SqlSelectItem)
      (into : Option Unit) (from_ : List SqlTableWithJoins) (lateralViews : List Unit)
      (selection : Option SqlExpr) (groupBy : List SqlExpr) (clusterBy : List SqlExpr)
      (distributeBy : List SqlExpr) (sortBy : List SqlExpr) (having : Option SqlExpr)
      (qualify : Option SqlExpr)

/-- `sqlast::SelectItem` (subset). -/
inductive SqlSelectItem where
  | exprWithAlias (e : SqlExpr) (al : SqlIdent)
  | unnamedExpr (e : SqlExpr)
  | wildcard

/-- `sqlast::TableWithJoins`. -/
inductive SqlTableWithJoins where
  | mk (relation : SqlTableFactor) (joins : List Unit)

/-- `sqlast::TableFactor` (subset). -/
inductive SqlTableFactor where
  | table (name : List SqlIdent)
  | derived (lateral : Bool) (subquery : SqlQuery) (al : Option SqlTableAlias)

/-- `sqlast::TableAlias`. -/
inductive SqlTableAlias where
  | mk (name : SqlIdent) (columns : List SqlIdent)

end

/-- `ident` from src/qvm/src/compile/sql.rs: an identifier with no quote
style. -/
def ident (s : String) : SqlIdent := ⟨s, none⟩

/-- `SQLBody` (src/qvm/src/compile/schema.rs lines 487-490): a scalar SQL
expression or a SQL query. -/
inductive SQLBody where
  | expr (e : SqlExpr)
  | query (q : SqlQuery)

/-- `SQLBody::as_expr` (src/qvm/src/compile/schema.rs lines 493-553): a scalar
body is returned as is; a query is wrapped as
`(SELECT array_agg(subquery) AS value FROM (query) AS subquery)`. -/
def SQLBody.as_expr : SQLBody → SqlExpr
  | .expr e => e
  | .query q =>
    .subquery ⟨none,
      .select ⟨false, none,
        [.exprWithAlias
          (.function ⟨[ident "array_agg"],
            [.unnamed (.expr (.identifier (ident "subquery")))], none, false, false⟩)
          ⟨"value", none⟩],
        none,
        [⟨.derived false q (some ⟨ident "subquery", []⟩), []⟩],
        [], none, [], [], [], [], none, none⟩,
      [], none, none, none, none⟩

/-- `SQLBody::as_query` (src/qvm/src/compile/schema.rs lines 555-595): a query
body is returned as is; a scalar is wrapped as `SELECT expr AS value`. -/
def SQLBody.as_query : SQLBody → SqlQuery
  | .expr e =>
    ⟨none,
      .select ⟨false, none, [.exprWithAlias e ⟨"value", none⟩],
        none, [], [], none, [], [], [], [], none, none⟩,
      [], none, none, none, none⟩
  | .query q => q

/-- Shape test: is this expression a subquery whose single projection is an
`array_agg(...)` call (the array-producing wrapper built by `as_expr`)? -/
def isArrayAggSubquery : SqlExpr → Bool
  | .subquery ⟨_, .select ⟨_, _, [.exprWithAlias (.function ⟨[f], _, _, _, _⟩) _],
      _, _, _, _, _, _, _, _, _, _⟩, _, _, _, _, _⟩ => f.value = "array_agg"
  | _ => false

/-- C6: for a scalar body `b = Expr(e)`, `as_query(as_expr(b))` equals
`as_query(b)` outright (so in particular up to alias normalization); the
converse round trip starting from the query `as_query(Expr e)` yields, via
`as_expr`, an array-producing `array_agg` subquery that is never equal to the
original scalar expression — the scalar-versus-array shape is not
preserved. -/
theorem c6_sqlbody_roundtrip :
    (∀ e : SqlExpr,
      (SQLBody.expr ((SQLBody.expr e).as_expr)).as_query = (SQLBody.expr e).as_query) ∧
    (∀ e : SqlExpr,
      isArrayAggSubquery ((SQLBody.query ((SQLBody.expr e).as_query)).as_expr) = true ∧
        (SQLBody.query ((SQLBody.expr e).as_query)).as_expr ≠ e) := by
  refine ⟨fun e => rfl, fun e => ⟨rfl, ?_⟩⟩
  intro h
  have hs := congrArg sizeOf h
  simp [SQLBody.as_expr, SQLBody.as_query, ident] at hs
  omega

/-- The scheme/expression cell pair of an `STypedExpr` held by a declaration
(src/qvm/src/compile/schema.rs lines 813-817).  Neither cell's contents is
inspected by the operations under verification, so the two cells are opaque
slot ids allocated from a counter. -/
structure STypedExprM where
  typeSlot : Nat
  exprSlot : Nat
  deriving DecidableEq, Repr

/-- `SchemaEntry` (src/qvm/src/compile/schema.rs lines 860-865): an imported
schema path, a type cell, or an expression. -/
inductive SchemaEntry where
  | schema (path : Path)
  | typ (cell : Nat)
  | expr (e : STypedExprM)
  deriving DecidableEq, Repr

/-- `Decl` (src/qvm/src/compile/schema.rs lines 881-887); the source field
`extern_` is named `isExt` here. -/
structure Decl where
  public : Bool
  isExt : Bool
  name : String
  value : SchemaEntry
  deriving DecidableEq, Repr

/-- `ImportedSchema` (src/qvm/src/compile/schema.rs lines 921-925): `args` is
`None` or `Some(Vec::new())`; `schema` is an id into the schema store. -/
structure ImportedSchema where
  args : Option (List Unit)
  schema : Nat
  deriving DecidableEq, Repr

/-- `Schema` (src/qvm/src/compile/schema.rs lines 984-993): folder, parent
scope, decls, imports and the extern-type map (source field `externs`, named
`exts` here), with maps as association lists.  The `file` string and the
compiled `exprs` vector are not read by the operations under verification. -/
structure SchemaObj where
  folder : Option String
  parent : Option Nat
  decls : List (String × Decl)
  imports : List (Path × ImportedSchema)
  exts : List (String × Nat)
  deriving DecidableEq, Repr

/-- The store of schema objects; a schema id is an index into the list. -/
abbrev SchemaStore := List SchemaObj

/-- An empty scope (`Schema::new` with no folder). -/
def emptySchema : SchemaObj := ⟨none, none, [], [], []⟩

/-- Read a schema object by id. -/
def getSchema (stx : SchemaStore) (i : Nat) : SchemaObj := stx.getD i emptySchema

/-- Replace a schema object by id. -/
def setSchema (stx : SchemaStore) (i : Nat) (s : SchemaObj) : SchemaStore := stx.set i s

/-- Scan a reversed path for the extension of its final component: drop
characters up to (and including) the first `.`; reaching a `/` or the start
means the file name has no extension.  Returns the reversed stem of the full
path. -/
def dropExtRev : List Char → Option (List Char)
  | [] => none
  | c :: rest =>
    if c = '.' then some rest
    else if c = '/' then none
    else dropExtRev rest

/-- `PathBuf::set_extension(ext)` on a slash-joined path string: replace the
extension of the final component, or append `.ext` when the component has
none (a file name consisting of a leading dot only also counts as having no
extension, as in `std::path`). -/
def setExtension (p ext : String) : String :=
  match dropExtRev p.data.reverse with
  | some stemRev =>
    if stemRev = [] ∨ stemRev.headD ' ' = '/' then p ++ "." ++ ext
    else String.mk stemRev.reverse ++ "." ++ ext
  | none => p ++ "." ++ ext

/-- The file path `lookup_schema` resolves an import to
(src/qvm/src/compile/compile.rs lines 56-62): the scope folder, then each
path component, then `set_extension("co")` — the extension is the hardcoded
string "co" in the source. -/
def resolvedImportPath (root : String) (path : Path) : String :=
  setExtension (path.foldl (fun acc p => acc ++ "/" ++ p) root) "co"

/-- `SCHEMA_EXTENSIONS` (src/qvm/src/compile/schema.rs line 1009). -/
def SCHEMA_EXTENSIONS : List String := ["tql"]

/-- `lookup_schema` (src/qvm/src/compile/compile.rs lines 51-82).
`compileF` is the oracle standing for `compile_schema_from_file` (file
reading and the parser are outside src/): `compileF fp = some v` means the
file at `fp` exists and compiles to schema id `v` (already in the store);
`none` means it does not exist, which the source reports as `NoSuchEntry`.
On success the imported schema is flagged with `args = Some(vec![])` exactly
when it has extern declarations, and is cached in the scope's imports. -/
def lookupSchema (compileF : String → Option Nat) (stx : SchemaStore) (sid : Nat)
    (path : Path) : Except CompileErr (ImportedSchema × SchemaStore) :=
  match lookupA (getSchema stx sid).imports path with
  | some s => .ok (s, stx)
  | none =>
    match (getSchema stx sid).folder with
    | some root =>
      let fp := resolvedImportPath root path
      match compileF fp with
      | none => .error (.noSuchEntry [fp])
      | some v =>
        let imported : ImportedSchema :=
          ⟨if (getSchema stx v).exts.length = 0 then none else some [], v⟩
        .ok (imported, setSchema stx sid
          { getSchema stx sid with imports := (getSchema stx sid).imports ++ [(path, imported)] })
    | none => .error (.noSuchEntry path)

/-- The `for (i, ident) in path.iter().enumerate()` loop of `lookup_path`
(src/qvm/src/compile/compile.rs lines 94-132).  `orig` is the path of the
current invocation (used in error payloads); `first` tracks `i == 0` (it is
reset by the fresh recursive invocations on the parent and global scopes, and
cleared after stepping into an imported schema). -/
def lookupPathGo (compileF : String → Option Nat) :
    Nat → SchemaStore → Nat → Nat → Path → Path → Bool → Bool →
    Except CompileErr ((Decl × Path) × SchemaStore)
  | 0, _, _, _, _, _, _, _ => .error (.internal "fuel exhausted")
  | _ + 1, _, _, _, _, [], _, _ => .error (.internal "empty path in loop")
  | fuel + 1, stx, gsid, sid, orig, idnt :: rest, first, allowGlobal =>
    match lookupA (getSchema stx sid).decls idnt with
    | some decl =>
      if ¬first ∧ ¬decl.public then .error (.wrongKind orig "public")
      else if rest.isEmpty then .ok ((decl, []), stx)
      else
        match decl.value with
        | .schema p =>
          match lookupSchema compileF stx sid p with
          | .ok (imported, stx') =>
            lookupPathGo compileF fuel stx' gsid imported.schema orig rest false allowGlobal
          | .error e => .error e
        | _ => .ok ((decl, rest), stx)
    | none =>
      match (getSchema stx sid).parent with
      | some par =>
        lookupPathGo compileF fuel stx gsid par (idnt :: rest) (idnt :: rest) true allowGlobal
      | none =>
        if allowGlobal then
          lookupPathGo compileF fuel stx gsid gsid (idnt :: rest) (idnt :: rest) true false
        else .error (.noSuchEntry orig)

/-- `lookup_path` (src/qvm/src/compile/compile.rs lines 84-135); `gsid` is the
id of the builtin global scope (`GLOBAL_SCHEMA`). -/
def lookupPath (compileF : String → Option Nat) (fuel : Nat) (stx : SchemaStore)
    (gsid sid : Nat) (path : Path) (allowGlobal : Bool) :
    Except CompileErr ((Decl × Path) × SchemaStore) :=
  if path.length = 0 then .error (.noSuchEntry path)
  else lookupPathGo compileF fuel stx gsid sid path path true allowGlobal

theorem lookupA_append_of_none {α β : Type} [DecidableEq α] {l : List (α × β)} {k : α}
    {v : β} (h : lookupA l k = none) : lookupA (l ++ [(k, v)]) k = some v := by
  induction l with
  | nil => simp [lookupA]
  | cons hd tl ih =>
    rw [lookupA] at h
    by_cases hk : hd.1 = k
    · rw [if_pos hk] at h
      exact absurd h (by simp)
    · rw [if_neg hk] at h
      rw [List.cons_append, lookupA, if_neg hk]
      exact ih h

theorem getD_set_self {α : Type} : ∀ (l : List α) (i : Nat) (a d : α), i < l.length →
    (l.set i a).getD i d = a := by
  intro l
  induction l with
  | nil =>
    intro i a d h
    simp at h
  | cons x xs ih =>
    intro i a d h
    cases i with
    | zero => simp
    | succ n =>
      rw [List.set_cons_succ, List.getD_cons_succ]
      exact ih n a d (by simpa using h)

theorem getSchema_set_self {stx : SchemaStore} {i : Nat} {s : SchemaObj}
    (h : i < stx.length) : getSchema (setSchema stx i s) i = s :=
  getD_set_self stx i s emptySchema h

/-- C1 (code bug): `lookup_schema` resolves an import of path `p₀…pₙ` in a
scope with folder `f` to `f/p₀/…/pₙ` with extension `"co"` — the hardcoded
string in `compile.rs` — not the default schema extension `"tql"` declared by
`SCHEMA_EXTENSIONS`.  Concretely, a folder `/w` and import path `["a"]`
resolve to `/w/a.co`, so a store holding only `/w/a.tql` is reported as
`NoSuchEntry`; when resolution succeeds the imported scope is cached in
`scope.imports` under the path. -/
theorem c1_lookup_schema_extension :
    resolvedImportPath "/w" ["a"] = "/w/a.co" ∧
      "/w/a.co" ≠ "/w/a.tql" ∧
      SCHEMA_EXTENSIONS = ["tql"] ∧
      lookupSchema (fun fp => if fp = "/w/a.tql" then some 1 else none)
          [⟨some "/w", none, [], [], []⟩, emptySchema] 0 ["a"] =
        .error (.noSuchEntry ["/w/a.co"]) ∧
      (∀ (compileF : String → Option Nat) (stx : SchemaStore) (sid : Nat) (path : Path)
        (imp : ImportedSchema) (stx' : SchemaStore),
        lookupA (getSchema stx sid).imports path = none →
        lookupSchema compileF stx sid path = .ok (imp, stx') →
        lookupA (getSchema stx' sid).imports path = some imp) := by
  refine ⟨by decide, by decide, rfl, by decide, ?_⟩
  intro compileF stx sid path imp stx' hmiss h
  rw [lookupSchema, hmiss] at h
  cases hf : (getSchema stx sid).folder with
  | none =>
    simp only [hf] at h
    exact Except.noConfusion h
  | some root =>
    simp only [hf] at h
    cases hc : compileF (resolvedImportPath root path) with
    | none =>
      simp only [hc] at h
      exact Except.noConfusion h
    | some v =>
      simp only [hc, Except.ok.injEq, Prod.mk.injEq] at h
      obtain ⟨himp, hstx⟩ := h
      subst himp
      subst hstx
      have hlen : sid < stx.length := by
        by_contra hge
        have hd : getSchema stx sid = emptySchema := by
          rw [getSchema, List.getD_eq_default]
          omega
        rw [hd] at hf
        simp [emptySchema] at hf
      rw [getSchema_set_self hlen]
      exact lookupA_append_of_none hmiss

/-- Witness for C1: with a file present at the "co"-resolved path, the import
succeeds and is cached in the scope's imports under the import path. -/
theorem c1_lookup_schema_extension_witness :
    lookupA (getSchema [⟨some "/w", none, [], [], []⟩, emptySchema] 0).imports ["a"] = none ∧
      lookupSchema (fun fp => if fp = "/w/a.co" then some 1 else none)
          [⟨some "/w", none, [], [], []⟩, emptySchema] 0 ["a"] =
        .ok (⟨none, 1⟩, [⟨some "/w", none, [], [(["a"], ⟨none, 1⟩)], []⟩, emptySchema]) ∧
      lookupA (getSchema [⟨some "/w", none, [], [(["a"], ⟨none, 1⟩)], []⟩, emptySchema] 0).imports
          ["a"] = some ⟨none, 1⟩ :=
  ⟨rfl, by decide,
    c1_lookup_schema_extension.2.2.2.2 (fun fp => if fp = "/w/a.co" then some 1 else none)
      [⟨some "/w", none, [], [], []⟩, emptySchema] 0 ["a"] ⟨none, 1⟩
      [⟨some "/w", none, [], [(["a"], ⟨none, 1⟩)], []⟩, emptySchema] rfl (by decide)⟩

/-- C3: the case analysis of `lookup_path`: an empty path errors with
`NoSuchEntry`; a first segment found in the scope's decls is returned with
empty remainder when final, and with the trailing segments as remainder when
its value is not a `Schema`; a segment after the first (tracked by the loop
flag) whose decl is not public errors with `WrongKind`; on a `Schema` value
the loop continues in the imported scope resolved by `lookup_schema`; a
missing segment retries the full remaining path in the parent scope; with no
parent and `allow_global`, it retries once in the global scope with
`allow_global = false`; otherwise the result is `NoSuchEntry`. -/
theorem c3_lookup_path :
    (∀ (compileF : String → Option Nat) (fuel : Nat) (stx : SchemaStore) (gsid sid : Nat)
      (ag : Bool), lookupPath compileF fuel stx gsid sid [] ag = .error (.noSuchEntry [])) ∧
    (∀ (compileF : String → Option Nat) (fuel : Nat) (stx : SchemaStore) (gsid sid : Nat)
      (x : String) (d : Decl) (ag : Bool),
      lookupA (getSchema stx sid).decls x = some d →
      lookupPath compileF (fuel + 1) stx gsid sid [x] ag = .ok ((d, []), stx)) ∧
    (∀ (compileF : String → Option Nat) (fuel : Nat) (stx : SchemaStore) (gsid sid : Nat)
      (x : String) (rest : Path) (d : Decl) (ag : Bool),
      lookupA (getSchema stx sid).decls x = some d →
      rest ≠ [] →
      (∀ p, d.value ≠ .schema p) →
      lookupPath compileF (fuel + 1) stx gsid sid (x :: rest) ag = .ok ((d, rest), stx)) ∧
    (∀ (compileF : String → Option Nat) (fuel : Nat) (stx : SchemaStore) (gsid sid : Nat)
      (orig : Path) (x : String) (rest : Path) (d : Decl) (ag : Bool),
      lookupA (getSchema stx sid).decls x = some d →
      d.public = false →
      lookupPathGo compileF (fuel + 1) stx gsid sid orig (x :: rest) false ag =
        .error (.wrongKind orig "public")) ∧
    (∀ (compileF : String → Option Nat) (fuel : Nat) (stx : SchemaStore) (gsid sid : Nat)
      (orig : Path) (x : String) (rest : Path) (d : Decl) (p : Path)
      (imp : ImportedSchema) (stx' : SchemaStore) (ag : Bool),
      lookupA (getSchema stx sid).decls x = some d →
      rest ≠ [] →
      d.value = .schema p →
      lookupSchema compileF stx sid p = .ok (imp, stx') →
      lookupPathGo compileF (fuel + 1) stx gsid sid orig (x :: rest) true ag =
        lookupPathGo compileF fuel stx' gsid imp.schema orig rest false ag) ∧
    (∀ (compileF : String → Option Nat) (fuel : Nat) (stx : SchemaStore) (gsid sid : Nat)
      (x : String) (rest : Path) (par : Nat) (ag : Bool),
      lookupA (getSchema stx sid).decls x = none →
      (getSchema stx sid).parent = some par →
      lookupPath compileF (fuel + 1) stx gsid sid (x :: rest) ag =
        lookupPath compileF fuel stx gsid par (x :: rest) ag) ∧
    (∀ (compileF : String → Option Nat) (fuel : Nat) (stx : SchemaStore) (gsid sid : Nat)
      (x : String) (rest : Path),
      lookupA (getSchema stx sid).decls x = none →
      (getSchema stx sid).parent = none →
      lookupPath compileF (fuel + 1) stx gsid sid (x :: rest) true =
        lookupPath compileF fuel stx gsid gsid (x :: rest) false) ∧
    (∀ (compileF : String → Option Nat) (fuel : Nat) (stx : SchemaStore) (gsid sid : Nat)
      (x : String) (rest : Path),
      lookupA (getSchema stx sid).decls x = none →
      (getSchema stx sid).parent = none →
      lookupPath compileF (fuel + 1) stx gsid sid (x :: rest) false =
        .error (.noSuchEntry (x :: rest))) := by
  refine ⟨?_, ?_, ?_, ?_, ?_, ?_, ?_, ?_⟩
  · intro compileF fuel stx gsid sid ag
    rw [lookupPath]
    simp
  · intro compileF fuel stx gsid sid x d ag h
    rw [lookupPath]
    simp only [List.length_cons, List.length_nil]
    rw [if_neg (by omega), lookupPathGo, h]
    simp
  · intro compileF fuel stx gsid sid x rest d ag h hrest hval
    obtain ⟨r, rs, rfl⟩ : ∃ r rs, rest = r :: rs := by
      cases rest with
      | nil => exact absurd rfl hrest
      | cons r rs => exact ⟨r, rs, rfl⟩
    rw [lookupPath, if_neg (by simp), lookupPathGo, h]
    cases hv : d.value with
    | schema p => exact absurd hv (hval p)
    | typ c => simp
    | expr e => simp
  · intro compileF fuel stx gsid sid orig x rest d ag h hpub
    rw [lookupPathGo, h]
    simp [hpub]
  · intro compileF fuel stx gsid sid orig x rest d p imp stx' ag h hrest hval hls
    obtain ⟨r, rs, rfl⟩ : ∃ r rs, rest = r :: rs := by
      cases rest with
      | nil => exact absurd rfl hrest
      | cons r rs => exact ⟨r, rs, rfl⟩
    rw [lookupPathGo, h]
    simp [hval, hls]
  · intro compileF fuel stx gsid sid x rest par ag h hpar
    rw [lookupPath, lookupPath]
    rw [if_neg (by simp), if_neg (by simp)]
    rw [lookupPathGo, h, hpar]
  · intro compileF fuel stx gsid sid x rest h hpar
    rw [lookupPath, lookupPath]
    rw [if_neg (by simp), if_neg (by simp)]
    rw [lookupPathGo, h, hpar]
    simp
  · intro compileF fuel stx gsid sid x rest h hpar
    rw [lookupPath]
    rw [if_neg (by simp)]
    rw [lookupPathGo, h, hpar]
    simp

/-- Witness for C3: a single-segment path found in the scope's decls is
returned with an empty remainder. -/
theorem c3_lookup_path_witness :
    lookupA (getSchema [⟨none, none, [("a", ⟨true, false, "a", .typ 0⟩)], [], []⟩] 0).decls
        "a" = some ⟨true, false, "a", .typ 0⟩ ∧
      lookupPath (fun _ => none) 3 [⟨none, none, [("a", ⟨true, false, "a", .typ 0⟩)], [], []⟩]
          0 0 ["a"] true =
        .ok ((⟨true, false, "a", .typ 0⟩, []),
          [⟨none, none, [("a", ⟨true, false, "a", .typ 0⟩)], [], []⟩]) :=
  ⟨by decide,
    c3_lookup_path.2.1 (fun _ => none) 2 [⟨none, none, [("a", ⟨true, false, "a", .typ 0⟩)], [], []⟩]
      0 0 "a" ⟨true, false, "a", .typ 0⟩ true (by decide)⟩

mutual

/-- `ast::Type`, the surface type syntax consumed by `resolve_type`. -/
inductive AstType where
  | reference (path : Path)
  | struct (entries : List StructEntry)
  | list (inner : AstType)
  | exclude

/-- `ast::StructEntry`: a named field or a (reserved) inclusion. -/
inductive StructEntry where
  | nameAndType (name : String) (ty : AstType)
  | includeEntry (path : Path)

end

/-- The compilation state threaded through declaration and type resolution:
the `MType` cell store, a counter allocating the opaque scheme/expression
cells, and the schema store. -/
structure CState where
  store : Store
  slots : Nat
  schemas : SchemaStore
  deriving DecidableEq, Repr

/-- `STypedExpr::new_unknown`: a fresh scheme cell and a fresh expression
cell (two fresh opaque slots). -/
def newUnknownSTyped (cst : CState) : STypedExprM × CState :=
  (⟨cst.slots, cst.slots + 1⟩, { cst with slots := cst.slots + 2 })

/-- `MType::new_unknown`: a fresh Unknown cell in the store. -/
def newUnknownMType (cst : CState) : Nat × CState :=
  (cst.store.length, { cst with store := cst.store ++ [.unknown] })

mutual

/-- `resolve_type` (src/qvm/src/compile/compile.rs lines 137-181).
`Reference` resolves the path with `import_global = true`, requires an empty
remainder (else `NoSuchEntry`) and a `Type` declaration (else `WrongKind`);
`Struct` rejects duplicate field names with `DuplicateEntry` and builds a
record of nullable fields (non-null types are a TODO in the source); `List`
wraps the inner cell in a fresh Known cell; struct inclusions and exclusions
are `Unimplemented`. -/
def resolveType (compileF : String → Option Nat) :
    Nat → CState → Nat → Nat → AstType → Except CompileErr (Nat × CState)
  | 0, _, _, _, _ => .error (.internal "fuel exhausted")
  | fuel + 1, cst, gsid, sid, .reference path =>
    match lookupPath compileF (fuel + 1) cst.schemas gsid sid path true with
    | .error e => .error e
    | .ok ((decl, r), schemas') =>
      if r.length > 0 then .error (.noSuchEntry r)
      else
        match decl.value with
        | .typ t => .ok (t, { cst with schemas := schemas' })
        | _ => .error (.wrongKind path "type")
  | fuel + 1, cst, gsid, sid, .struct entries =>
    match resolveStructEntries compileF fuel cst gsid sid [] [] entries with
    | .ok (fields, cst') =>
      .ok (cst'.store.length, { cst' with store := cst'.store ++ [.known (.record fields)] })
    | .error e => .error e
  | fuel + 1, cst, gsid, sid, .list inner =>
    match resolveType compileF fuel cst gsid sid inner with
    | .ok (c, cst') =>
      .ok (cst'.store.length, { cst' with store := cst'.store ++ [.known (.list c)] })
    | .error e => .error e
  | _ + 1, _, _, _, .exclude => .error (.unimplemented "Struct exclusions")

/-- The entry loop of `resolve_type`'s Struct arm (compile.rs lines 155-172):
`seen` is the set of field names found so far, `acc` the fields built. -/
def resolveStructEntries (compileF : String → Option Nat) :
    Nat → CState → Nat → Nat → List String → List MField → List StructEntry →
    Except CompileErr (List MField × CState)
  | _, cst, _, _, _, acc, [] => .ok (acc, cst)
  | 0, _, _, _, _, _, _ :: _ => .error (.internal "fuel exhausted")
  | fuel + 1, cst, gsid, sid, seen, acc, .nameAndType n ty :: rest =>
    if n ∈ seen then .error (.duplicateEntry [n])
    else
      match resolveType compileF fuel cst gsid sid ty with
      | .ok (c, cst') =>
        resolveStructEntries compileF fuel cst' gsid sid (seen ++ [n])
          (acc ++ [⟨n, c, true⟩]) rest
      | .error e => .error e
  | _ + 1, _, _, _, _, _, .includeEntry _ :: _ => .error (.unimplemented "Struct inclusions")

end

/-- `ast::ImportList`. -/
inductive ImportList where
  | noList
  | star
  | items (items : List Path)
  deriving DecidableEq, Repr

/-- `ast::StmtBody` restricted to what the declaration pass reads: the
declared names, the import path and list.  `extDecl` models the `Extern`
statement. -/
inductive StmtBody where
  | noop
  | exprStmt
  | importStmt (path : Path) (list : ImportList)
  | typeDef (name : String)
  | fnDef (name : String)
  | letStmt (name : String)
  | extDecl (name : String)
  deriving DecidableEq, Repr

/-- `ast::Stmt`: the export flag and the body. -/
structure Stmt where
  export_ : Bool
  body : StmtBody
  deriving DecidableEq, Repr

/-- `rebind_decl` (src/qvm/src/compile/compile.rs lines 259-271): `Schema`
and `Type` entries are forwarded unchanged; an `Expr` entry is rebound as a
forwarding `SchemaEntry` expression whose derived scheme cell and fresh
expression cell are two fresh opaque slots. -/
def rebindDecl (cst : CState) (decl : Decl) : SchemaEntry × CState :=
  match decl.value with
  | .schema s => (.schema s, cst)
  | .typ t => (.typ t, cst)
  | .expr _ => (.expr ⟨cst.slots, cst.slots + 1⟩, { cst with slots := cst.slots + 2 })

/-- The `ImportList::Items` loop of `declare_schema_entries` (compile.rs
lines 433-459): each item must be a single identifier (else
`Unimplemented("path imports")`), is looked up in the imported schema with
`import_global = false`, must resolve with an empty remainder, and is rebound
into the current scope. -/
def importItemsLoop (compileF : String → Option Nat) (fuel gsid : Nat) :
    CState → Nat → List Path → List (String × Bool × SchemaEntry) →
    Except CompileErr (List (String × Bool × SchemaEntry) × CState)
  | cst, _, [], acc => .ok (acc, cst)
  | cst, isid, item :: rest, acc =>
    if item.length ≠ 1 then .error (.unimplemented "path imports")
    else
      match lookupPath compileF fuel cst.schemas gsid isid item false with
      | .error e => .error e
      | .ok ((decl, r), schemas') =>
        if r.length > 0 then .error (.noSuchEntry r)
        else
          let (entry, cst2) := rebindDecl { cst with schemas := schemas' } decl
          importItemsLoop compileF fuel gsid cst2 isid rest
            (acc ++ [(item.headD "", false, entry)])

/-- The `ImportList::Star` loop of `declare_schema_entries` (compile.rs lines
413-432): rebind every public decl of the imported schema. -/
def importStarLoop : CState → List (String × Decl) → List (String × Bool × SchemaEntry) →
    List (String × Bool × SchemaEntry) × CState
  | cst, [], acc => (acc, cst)
  | cst, (k, v) :: rest, acc =>
    if v.public then
      let (entry, cst') := rebindDecl cst v
      importStarLoop cst' rest (acc ++ [(k, false, entry)])
    else importStarLoop cst rest acc

/-- Phase A entry computation for one statement body: the big `match` of
`declare_schema_entries` (compile.rs lines 326-488).  No-ops and bare
expressions introduce no entries; an import first resolves the schema and
rejects a flagged one (`args` is `Some`) with
`Unimplemented("Importing with arguments")`; `type`/`fn`/`let`/`extern`
introduce one entry with a fresh unknown cell, `extern` with the extern
flag set. -/
def declareEntries (compileF : String → Option Nat) (fuel gsid : Nat) (cst : CState)
    (sid : Nat) :
    StmtBody → Except CompileErr (List (String × Bool × SchemaEntry) × CState)
  | .noop => .ok ([], cst)
  | .exprStmt => .ok ([], cst)
  | .importStmt path list =>
    match lookupSchema compileF cst.schemas sid path with
    | .error e => .error e
    | .ok (imported, schemas') =>
      if imported.args.isSome then .error (.unimplemented "Importing with arguments")
      else
        let cst1 := { cst with schemas := schemas' }
        match list with
        | .noList => .ok ([(path.getLastD "", false, .schema path)], cst1)
        | .star =>
          .ok (importStarLoop cst1 (getSchema cst1.schemas imported.schema).decls [])
        | .items items =>
          importItemsLoop compileF fuel gsid cst1 imported.schema items []
  | .typeDef n =>
    let (c, cst1) := newUnknownMType cst
    .ok ([(n, false, .typ c)], cst1)
  | .fnDef n =>
    let (e, cst1) := newUnknownSTyped cst
    .ok ([(n, false, .expr e)], cst1)
  | .letStmt n =>
    let (e, cst1) := newUnknownSTyped cst
    .ok ([(n, false, .expr e)], cst1)
  | .extDecl n =>
    let (e, cst1) := newUnknownSTyped cst
    .ok ([(n, true, .expr e)], cst1)

/-- The insertion loop of `declare_schema_entries` (compile.rs lines
490-504): an already-present key is a `DuplicateEntry`; otherwise a `Decl`
carrying the statement's export flag, the extern flag, the name itself and
the value is inserted under the name. -/
def insertEntries (exported : Bool) :
    CState → Nat → List (String × Bool × SchemaEntry) → Except CompileErr CState
  | cst, _, [] => .ok cst
  | cst, sid, (n, ext, value) :: rest =>
    if (lookupA (getSchema cst.schemas sid).decls n).isSome then
      .error (.duplicateEntry [n])
    else
      let s := getSchema cst.schemas sid
      insertEntries exported
        { cst with schemas := (setSchema cst.schemas sid
            { s with decls := s.decls ++ [(n, ⟨exported, ext, n, value⟩)] }) } sid rest

/-- Declaration of one statement: compute its entries, then insert them. -/
def declareStmt (compileF : String → Option Nat) (fuel gsid : Nat) (cst : CState)
    (sid : Nat) (stmt : Stmt) : Except CompileErr CState :=
  match declareEntries compileF fuel gsid cst sid stmt.body with
  | .error e => .error e
  | .ok (entries, cst1) => insertEntries stmt.export_ cst1 sid entries

/-- `declare_schema_entries` (compile.rs lines 324-508): Phase A over all
statements. -/
def declareSchemaEntries (compileF : String → Option Nat) (fuel gsid : Nat) :
    CState → Nat → List Stmt → Except CompileErr CState
  | cst, _, [] => .ok cst
  | cst, sid, stmt :: rest =>
    match declareStmt compileF fuel gsid cst sid stmt with
    | .ok cst1 => declareSchemaEntries compileF fuel gsid cst1 sid rest
    | .error e => .error e

/-- The argument-declaration loop of the `FnDef` arm of
`compile_schema_entries` (src/qvm/src/compile/compile.rs lines 595-618): a
duplicate parameter name is rejected with `DuplicateEntry` carrying
`name.clone()` — the *function* name, not the parameter name; otherwise the
argument type is resolved, the parameter installed as a public extern Expr
decl and in the inner scope's extern map, and a nullable `MField`
collected. -/
def fnArgsLoop (compileF : String → Option Nat) (fuel gsid : Nat) (fname : String) :
    CState → Nat → List (String × AstType) → List MField →
    Except CompileErr (List MField × CState)
  | cst, _, [], acc => .ok (acc, cst)
  | cst, iid, (an, aty) :: rest, acc =>
    if (lookupA (getSchema cst.schemas iid).decls an).isSome then
      .error (.duplicateEntry [fname])
    else
      match resolveType compileF fuel cst gsid iid aty with
      | .error e => .error e
      | .ok (tc, cst1) =>
        let (ste, cst2) := newUnknownSTyped cst1
        let s := getSchema cst2.schemas iid
        let cst3 := { cst2 with schemas := (setSchema cst2.schemas iid
          { s with decls := s.decls ++ [(an, ⟨true, true, an, .expr ste⟩)],
                   exts := s.exts ++ [(an, tc)] }) }
        fnArgsLoop compileF fuel gsid fname cst3 iid rest (acc ++ [⟨an, tc, true⟩])

/-- The inner-scope creation and argument loop of the `FnDef` arm
(compile.rs lines 592-618): a fresh scope with the current scope as parent
and an inherited folder, then the argument loop.  Returns the inner scope id
and the compiled argument fields. -/
def compileFnDefArgs (compileF : String → Option Nat) (fuel gsid : Nat) (cst : CState)
    (sid : Nat) (fname : String) (args : List (String × AstType)) :
    Except CompileErr (Nat × List MField × CState) :=
  let inner : SchemaObj :=
    { emptySchema with folder := (getSchema cst.schemas sid).folder, parent := some sid }
  let iid := cst.schemas.length
  match fnArgsLoop compileF fuel gsid fname
      { cst with schemas := cst.schemas ++ [inner] } iid args [] with
  | .ok (fields, cst2) => .ok (iid, fields, cst2)
  | .error e => .error e

theorem lookupSchema_error_shape {compileF : String → Option Nat} {stx : SchemaStore}
    {sid : Nat} {path : Path} {e : CompileErr}
    (h : lookupSchema compileF stx sid path = .error e) : ∃ p, e = .noSuchEntry p := by
  rw [lookupSchema] at h
  cases hm : lookupA (getSchema stx sid).imports path with
  | some s =>
    simp only [hm] at h
    exact Except.noConfusion h
  | none =>
    simp only [hm] at h
    cases hf : (getSchema stx sid).folder with
    | none =>
      simp only [hf] at h
      exact ⟨path, (Except.error.inj h).symm⟩
    | some root =>
      simp only [hf] at h
      cases hc : compileF (resolvedImportPath root path) with
      | none =>
        simp only [hc] at h
        exact ⟨_, (Except.error.inj h).symm⟩
      | some v =>
        simp only [hc] at h
        exact Except.noConfusion h

theorem lookupPathGo_not_unimpl : ∀ (fuel : Nat) (compileF : String → Option Nat)
    (stx : SchemaStore) (gsid sid : Nat) (orig cur : Path) (first ag : Bool) (s : String),
    lookupPathGo compileF fuel stx gsid sid orig cur first ag ≠
      .error (.unimplemented s) := by
  intro fuel
  induction fuel with
  | zero =>
    intro compileF stx gsid sid orig cur first ag s h
    rw [lookupPathGo] at h
    exact CompileErr.noConfusion (Except.error.inj h)
  | succ fuel ih =>
    intro compileF stx gsid sid orig cur first ag s h
    cases cur with
    | nil =>
      rw [lookupPathGo] at h
      exact CompileErr.noConfusion (Except.error.inj h)
    | cons x rest =>
      rw [lookupPathGo] at h
      cases hd : lookupA (getSchema stx sid).decls x with
      | some decl =>
        simp only [hd] at h
        split at h
        · exact CompileErr.noConfusion (Except.error.inj h)
        · split at h
          · exact Except.noConfusion h
          · cases hv : decl.value with
            | schema p =>
              simp only [hv] at h
              cases hls : lookupSchema compileF stx sid p with
              | ok pr =>
                obtain ⟨imported, stx'⟩ := pr
                simp only [hls] at h
                exact ih compileF stx' gsid imported.schema orig rest false ag s h
              | error e =>
                simp only [hls] at h
                obtain ⟨pp, rfl⟩ := lookupSchema_error_shape hls
                exact CompileErr.noConfusion (Except.error.inj h)
            | typ c =>
              simp only [hv] at h
              exact Except.noConfusion h
            | expr e2 =>
              simp only [hv] at h
              exact Except.noConfusion h
      | none =>
        simp only [hd] at h
        cases hpar : (getSchema stx sid).parent with
        | some par =>
          simp only [hpar] at h
          exact ih compileF stx gsid par (x :: rest) (x :: rest) true ag s h
        | none =>
          simp only [hpar] at h
          split at h
          · exact ih compileF stx gsid gsid (x :: rest) (x :: rest) true false s h
          · exact CompileErr.noConfusion (Except.error.inj h)

theorem lookupPath_not_unimpl {compileF : String → Option Nat} {fuel : Nat}
    {stx : SchemaStore} {gsid sid : Nat} {path : Path} {ag : Bool} {s : String} :
    lookupPath compileF fuel stx gsid sid path ag ≠ .error (.unimplemented s) := by
  intro h
  rw [lookupPath] at h
  split at h
  · exact CompileErr.noConfusion (Except.error.inj h)
  · exact lookupPathGo_not_unimpl fuel compileF stx gsid sid path path true ag s h

theorem insertEntries_error_shape : ∀ (entries : List (String × Bool × SchemaEntry))
    (exported : Bool) (cst : CState) (sid : Nat) (e : CompileErr),
    insertEntries exported cst sid entries = .error e → ∃ p, e = .duplicateEntry p := by
  intro entries
  induction entries with
  | nil =>
    intro exported cst sid e h
    rw [insertEntries] at h
    exact Except.noConfusion h
  | cons ent rest ih =>
    intro exported cst sid e h
    obtain ⟨n, ext, value⟩ := ent
    rw [insertEntries] at h
    split at h
    · exact ⟨[n], (Except.error.inj h).symm⟩
    · exact ih _ _ _ _ h

theorem importItemsLoop_not_unimpl_args : ∀ (items : List Path)
    (compileF : String → Option Nat) (fuel gsid : Nat) (cst : CState) (isid : Nat)
    (acc : List (String × Bool × SchemaEntry)),
    importItemsLoop compileF fuel gsid cst isid items acc ≠
      .error (.unimplemented "Importing with arguments") := by
  intro items
  induction items with
  | nil =>
    intro compileF fuel gsid cst isid acc h
    rw [importItemsLoop] at h
    exact Except.noConfusion h
  | cons item rest ih =>
    intro compileF fuel gsid cst isid acc h
    rw [importItemsLoop] at h
    split at h
    · have hinj := CompileErr.unimplemented.inj (Except.error.inj h)
      exact absurd hinj (by decide)
    · cases hlp : lookupPath compileF fuel cst.schemas gsid isid item false with
      | error e =>
        simp only [hlp] at h
        have he := Except.error.inj h
        subst he
        exact lookupPath_not_unimpl hlp
      | ok pr =>
        obtain ⟨⟨decl, r⟩, schemas'⟩ := pr
        simp only [hlp] at h
        split at h
        · exact CompileErr.noConfusion (Except.error.inj h)
        · cases hre : rebindDecl { cst with schemas := schemas' } decl with
          | mk entry cst2 =>
            simp only [hre] at h
            exact ih _ _ _ _ _ _ h

/-- C4: `lookup_schema` flags an imported schema with `args = Some(vec![])`
exactly when it has extern declarations; declaring an import whose resolved
schema is flagged fails with `Unimplemented("Importing with arguments")`, and
declaring an import of an unflagged schema never produces that error. -/
theorem c4_import_with_args :
    (∀ (compileF : String → Option Nat) (stx : SchemaStore) (sid : Nat) (path : Path)
      (root : String) (v : Nat) (imp : ImportedSchema) (stx' : SchemaStore),
      lookupA (getSchema stx sid).imports path = none →
      (getSchema stx sid).folder = some root →
      compileF (resolvedImportPath root path) = some v →
      lookupSchema compileF stx sid path = .ok (imp, stx') →
      (imp.args.isSome = true ↔ (getSchema stx v).exts ≠ [])) ∧
    (∀ (compileF : String → Option Nat) (fuel gsid : Nat) (cst : CState) (sid : Nat)
      (path : Path) (list : ImportList) (exp : Bool) (imp : ImportedSchema)
      (schemas' : SchemaStore),
      lookupSchema compileF cst.schemas sid path = .ok (imp, schemas') →
      imp.args.isSome = true →
      declareStmt compileF fuel gsid cst sid ⟨exp, .importStmt path list⟩ =
        .error (.unimplemented "Importing with arguments")) ∧
    (∀ (compileF : String → Option Nat) (fuel gsid : Nat) (cst : CState) (sid : Nat)
      (path : Path) (list : ImportList) (exp : Bool) (imp : ImportedSchema)
      (schemas' : SchemaStore),
      lookupSchema compileF cst.schemas sid path = .ok (imp, schemas') →
      imp.args = none →
      declareStmt compileF fuel gsid cst sid ⟨exp, .importStmt path list⟩ ≠
        .error (.unimplemented "Importing with arguments")) := by
  refine ⟨?_, ?_, ?_⟩
  · intro compileF stx sid path root v imp stx' hmiss hf hc h
    rw [lookupSchema, hmiss] at h
    simp only [hf, hc] at h
    obtain ⟨himp, -⟩ := Prod.mk.injEq _ _ _ _ ▸ Except.ok.inj h
    subst himp
    by_cases he : (getSchema stx v).exts.length = 0
    · simp [he, List.length_eq_zero.mp he]
    · have : (getSchema stx v).exts ≠ [] := by
        intro hnil
        rw [hnil] at he
        exact he rfl
      simp [he, this]
  · intro compileF fuel gsid cst sid path list exp imp schemas' hls hargs
    rw [declareStmt]
    rw [show declareEntries compileF fuel gsid cst sid (.importStmt path list) =
      .error (.unimplemented "Importing with arguments") from ?_]
    rw [declareEntries, hls]
    simp [hargs]
  · intro compileF fuel gsid cst sid path list exp imp schemas' hls hargs h
    have hentries : ∀ l, declareEntries compileF fuel gsid cst sid (.importStmt path l) =
        (match l with
         | .noList =>
           .ok ([(path.getLastD "", false, .schema path)], { cst with schemas := schemas' })
         | .star =>
           .ok (importStarLoop { cst with schemas := schemas' }
             (getSchema schemas' imp.schema).decls [])
         | .items items =>
           importItemsLoop compileF fuel gsid { cst with schemas := schemas' }
             imp.schema items []) := by
      intro l
      rw [declareEntries, hls]
      simp [hargs]
    cases list with
    | noList =>
      rw [declareStmt, hentries .noList] at h
      obtain ⟨p, hp⟩ := insertEntries_error_shape _ _ _ _ _ h
      exact CompileErr.noConfusion hp
    | star =>
      cases hsl : importStarLoop { cst with schemas := schemas' }
          (getSchema schemas' imp.schema).decls [] with
      | mk entries cst2 =>
        rw [declareStmt, hentries .star] at h
        simp only [hsl] at h
        obtain ⟨p, hp⟩ := insertEntries_error_shape _ _ _ _ _ h
        exact CompileErr.noConfusion hp
    | items items =>
      cases hil : importItemsLoop compileF fuel gsid { cst with schemas := schemas' }
          imp.schema items [] with
      | error e =>
        rw [declareStmt, hentries (.items items)] at h
        simp only [hil] at h
        have he := Except.error.inj h
        subst he
        exact importItemsLoop_not_unimpl_args _ _ _ _ _ _ _ hil
      | ok pr =>
        obtain ⟨entries, cst2⟩ := pr
        rw [declareStmt, hentries (.items items)] at h
        simp only [hil] at h
        obtain ⟨p, hp⟩ := insertEntries_error_shape _ _ _ _ _ h
        exact CompileErr.noConfusion hp

/-- Witness for C4: importing a schema with one extern declaration is flagged
and rejected with `Unimplemented("Importing with arguments")`. -/
theorem c4_import_with_args_witness :
    lookupSchema (fun fp => if fp = "/w/p.co" then some 1 else none)
        [⟨some "/w", none, [], [], []⟩, ⟨none, none, [], [], [("e", 0)]⟩] 0 ["p"] =
      .ok (⟨some [], 1⟩,
        [⟨some "/w", none, [], [(["p"], ⟨some [], 1⟩)], []⟩, ⟨none, none, [], [], [("e", 0)]⟩]) ∧
      (ImportedSchema.mk (some []) 1).args.isSome = true ∧
      declareStmt (fun fp => if fp = "/w/p.co" then some 1 else none) 3 0
          ⟨[], 0, [⟨some "/w", none, [], [], []⟩, ⟨none, none, [], [], [("e", 0)]⟩]⟩ 0
          ⟨false, .importStmt ["p"] .noList⟩ =
        .error (.unimplemented "Importing with arguments") :=
  ⟨by decide, rfl,
    c4_import_with_args.2.1 (fun fp => if fp = "/w/p.co" then some 1 else none) 3 0
      ⟨[], 0, [⟨some "/w", none, [], [], []⟩, ⟨none, none, [], [], [("e", 0)]⟩]⟩ 0 ["p"]
      .noList false ⟨some [], 1⟩
      [⟨some "/w", none, [], [(["p"], ⟨some [], 1⟩)], []⟩, ⟨none, none, [], [], [("e", 0)]⟩]
      (by decide) rfl⟩

theorem lookupA_append_isSome {α β : Type} [DecidableEq α] (l : List (α × β)) (k : α)
    (v : β) : (lookupA (l ++ [(k, v)]) k).isSome = true := by
  induction l with
  | nil => simp [lookupA]
  | cons hd tl ih =>
    rw [List.cons_append, lookupA]
    by_cases hk : hd.1 = k
    · simp [hk]
    · rw [if_neg hk]
      exact ih

/-- Counterexample to C8 as stated: the function `f(x: number, x: number)`
fails with `DuplicateEntry(["f"])` — the error carries the *function* name
(`name.clone()` at compile.rs line 598), not the repeated parameter name
`x`. -/
theorem c8_duplicate_entry_counterexample :
    compileFnDefArgs (fun _ => none) 5 0
        ⟨[Constrained.known (.atom .float64)], 0,
          [⟨none, none, [("number", ⟨true, false, "number", .typ 0⟩)], [], []⟩]⟩ 0 "f"
        [("x", .reference ["number"]), ("x", .reference ["number"])] =
      .error (.duplicateEntry ["f"]) ∧
      CompileErr.duplicateEntry ["f"] ≠ CompileErr.duplicateEntry ["x"] :=
  ⟨by decide, by decide⟩

/-- C8 (amended): a second declaration of a name already present in a scope
fails with `DuplicateEntry` carrying the repeated name (for `type`, `fn`,
`let` and `extern` statements alike), and a repeated field name in a record
type fails with `DuplicateEntry` carrying the repeated field name; but a
function declaring two parameters with the same name fails with
`DuplicateEntry` carrying the *function* name. -/
theorem c8_duplicate_entry :
    (∀ (compileF : String → Option Nat) (fuel gsid : Nat) (cst : CState) (sid : Nat)
      (n : String) (exp : Bool) (d : Decl),
      lookupA (getSchema cst.schemas sid).decls n = some d →
      declareStmt compileF fuel gsid cst sid ⟨exp, .letStmt n⟩ =
        .error (.duplicateEntry [n])) ∧
    (∀ (compileF : String → Option Nat) (fuel gsid : Nat) (cst : CState) (sid : Nat)
      (n : String) (exp : Bool) (d : Decl),
      lookupA (getSchema cst.schemas sid).decls n = some d →
      declareStmt compileF fuel gsid cst sid ⟨exp, .fnDef n⟩ =
        .error (.duplicateEntry [n])) ∧
    (∀ (compileF : String → Option Nat) (fuel gsid : Nat) (cst : CState) (sid : Nat)
      (n : String) (exp : Bool) (d : Decl),
      lookupA (getSchema cst.schemas sid).decls n = some d →
      declareStmt compileF fuel gsid cst sid ⟨exp, .typeDef n⟩ =
        .error (.duplicateEntry [n])) ∧
    (∀ (compileF : String → Option Nat) (fuel gsid : Nat) (cst : CState) (sid : Nat)
      (n : String) (exp : Bool) (d : Decl),
      lookupA (getSchema cst.schemas sid).decls n = some d →
      declareStmt compileF fuel gsid cst sid ⟨exp, .extDecl n⟩ =
        .error (.duplicateEntry [n])) ∧
    (∀ (compileF : String → Option Nat) (fuel gsid : Nat) (cst : CState) (sid : Nat)
      (n : String) (t1 t2 : AstType) (c : Nat) (cst1 : CState),
      resolveType compileF (fuel + 1) cst gsid sid t1 = .ok (c, cst1) →
      resolveType compileF (fuel + 3) cst gsid sid
          (.struct [.nameAndType n t1, .nameAndType n t2]) =
        .error (.duplicateEntry [n])) ∧
    (∀ (compileF : String → Option Nat) (fuel gsid : Nat) (fname : String) (cst : CState)
      (iid : Nat) (an : String) (t1 t2 : AstType) (acc : List MField) (c : Nat)
      (cst1 : CState),
      lookupA (getSchema cst.schemas iid).decls an = none →
      resolveType compileF fuel cst gsid iid t1 = .ok (c, cst1) →
      iid < cst1.schemas.length →
      fnArgsLoop compileF fuel gsid fname cst iid [(an, t1), (an, t2)] acc =
        .error (.duplicateEntry [fname])) := by
  refine ⟨?_, ?_, ?_, ?_, ?_, ?_⟩
  · intro compileF fuel gsid cst sid n exp d h
    rw [declareStmt]
    simp [declareEntries, newUnknownSTyped, insertEntries, h]
  · intro compileF fuel gsid cst sid n exp d h
    rw [declareStmt]
    simp [declareEntries, newUnknownSTyped, insertEntries, h]
  · intro compileF fuel gsid cst sid n exp d h
    rw [declareStmt]
    simp [declareEntries, newUnknownMType, insertEntries, h]
  · intro compileF fuel gsid cst sid n exp d h
    rw [declareStmt]
    simp [declareEntries, newUnknownSTyped, insertEntries, h]
  · intro compileF fuel gsid cst sid n t1 t2 c cst1 h
    rw [resolveType]
    rw [show resolveStructEntries compileF (fuel + 2) cst gsid sid [] []
        [.nameAndType n t1, .nameAndType n t2] = .error (.duplicateEntry [n]) from ?_]
    simp [resolveStructEntries, h]
  · intro compileF fuel gsid fname cst iid an t1 t2 acc c cst1 hnone hres hlen
    rw [fnArgsLoop]
    simp only [hnone, Option.isSome_none, Bool.false_eq_true, if_false, ite_false, hres]
    rw [fnArgsLoop]
    rw [show (newUnknownSTyped cst1).2.schemas = cst1.schemas from rfl]
    rw [getSchema_set_self (by simpa using hlen)]
    simp [lookupA_append_isSome]

/-- Witness for C8: redeclaring `x` with a `let` in a scope that already
binds `x` fails with `DuplicateEntry(["x"])`. -/
theorem c8_duplicate_entry_witness :
    lookupA (getSchema [⟨none, none, [("x", ⟨false, false, "x", .typ 0⟩)], [], []⟩] 0).decls
        "x" = some ⟨false, false, "x", .typ 0⟩ ∧
      declareStmt (fun _ => none) 3 0
          ⟨[], 0, [⟨none, none, [("x", ⟨false, false, "x", .typ 0⟩)], [], []⟩]⟩ 0
          ⟨false, .letStmt "x"⟩ =
        .error (.duplicateEntry ["x"]) :=
  ⟨by decide,
    c8_duplicate_entry.1 (fun _ => none) 3 0
      ⟨[], 0, [⟨none, none, [("x", ⟨false, false, "x", .typ 0⟩)], [], []⟩]⟩ 0 "x" false
      ⟨false, false, "x", .typ 0⟩ (by decide)⟩

/-- The number of declaring statements of a source: statements other than
no-ops and bare expressions. -/
def declaringCount (stmts : List Stmt) : Nat :=
  (stmts.filter fun s =>
    match s.body with
    | .noop => false
    | .exprStmt => false
    | _ => true).length

/-- The number of names a statement introduces in Phase A (for sources
without star imports): none for no-ops and bare expressions, one per item
for an item-list import, one for every other declaring statement. -/
def stmtWeight (stmt : Stmt) : Nat :=
  match stmt.body with
  | .noop => 0
  | .exprStmt => 0
  | .importStmt _ .noList => 1
  | .importStmt _ .star => 0
  | .importStmt _ (.items items) => items.length
  | .typeDef _ => 1
  | .fnDef _ => 1
  | .letStmt _ => 1
  | .extDecl _ => 1

/-- Statements that are not star imports. -/
def noStarImport (stmt : Stmt) : Bool :=
  match stmt.body with
  | .importStmt _ .star => false
  | _ => true

/-- Phase A only ever adds import-cache entries outside the insertion loop:
the schema store keeps its length and every scope keeps its decls. -/
def declsPreserved (stx stx' : SchemaStore) : Prop :=
  stx'.length = stx.length ∧ ∀ j, (getSchema stx' j).decls = (getSchema stx j).decls

theorem declsPreserved_refl (stx : SchemaStore) : declsPreserved stx stx :=
  ⟨rfl, fun _ => rfl⟩

theorem declsPreserved_trans {s1 s2 s3 : SchemaStore} (h1 : declsPreserved s1 s2)
    (h2 : declsPreserved s2 s3) : declsPreserved s1 s3 :=
  ⟨h2.1.trans h1.1, fun j => (h2.2 j).trans (h1.2 j)⟩

theorem getD_set_ne {α : Type} : ∀ (l : List α) (i j : Nat) (a d : α), i ≠ j →
    (l.set i a).getD j d = l.getD j d := by
  intro l
  induction l with
  | nil => intro i j a d _; simp
  | cons x xs ih =>
    intro i j a d hne
    cases i with
    | zero =>
      cases j with
      | zero => exact absurd rfl hne
      | succ m => simp [List.getD_cons_succ]
    | succ n =>
      cases j with
      | zero => simp
      | succ m =>
        rw [List.set_cons_succ, List.getD_cons_succ, List.getD_cons_succ]
        exact ih n m a d (by omega)

theorem setSchema_decls_preserved {stx : SchemaStore} {sid : Nat} {s : SchemaObj}
    (hlen : sid < stx.length) (hd : s.decls = (getSchema stx sid).decls) :
    declsPreserved stx (setSchema stx sid s) := by
  refine ⟨by simp [setSchema], fun j => ?_⟩
  by_cases hj : sid = j
  · subst hj
    rw [getSchema_set_self hlen, hd]
  · rw [getSchema, setSchema, getD_set_ne _ _ _ _ _ hj]
    rfl

theorem lookupSchema_preserves {compileF : String → Option Nat} {stx : SchemaStore}
    {sid : Nat} {path : Path} {imp : ImportedSchema} {stx' : SchemaStore}
    (h : lookupSchema compileF stx sid path = .ok (imp, stx')) :
    declsPreserved stx stx' := by
  rw [lookupSchema] at h
  cases hm : lookupA (getSchema stx sid).imports path with
  | some s =>
    simp only [hm] at h
    obtain ⟨-, hstx⟩ := Prod.mk.injEq _ _ _ _ ▸ Except.ok.inj h
    subst hstx
    exact declsPreserved_refl stx
  | none =>
    simp only [hm] at h
    cases hf : (getSchema stx sid).folder with
    | none =>
      simp only [hf] at h
      exact Except.noConfusion h
    | some root =>
      simp only [hf] at h
      cases hc : compileF (resolvedImportPath root path) with
      | none =>
        simp only [hc] at h
        exact Except.noConfusion h
      | some v =>
        simp only [hc] at h
        obtain ⟨-, hstx⟩ := Prod.mk.injEq _ _ _ _ ▸ Except.ok.inj h
        subst hstx
        have hlen : sid < stx.length := by
          by_contra hge
          have hdef : getSchema stx sid = emptySchema := by
            rw [getSchema, List.getD_eq_default]
            omega
          rw [hdef] at hf
          simp [emptySchema] at hf
        exact setSchema_decls_preserved hlen rfl

theorem lookupPathGo_preserves : ∀ (fuel : Nat) (compileF : String → Option Nat)
    (stx : SchemaStore) (gsid sid : Nat) (orig cur : Path) (first ag : Bool)
    (d : Decl) (r : Path) (stx' : SchemaStore),
    lookupPathGo compileF fuel stx gsid sid orig cur first ag = .ok ((d, r), stx') →
    declsPreserved stx stx' := by
  intro fuel
  induction fuel with
  | zero =>
    intro compileF stx gsid sid orig cur first ag d r stx' h
    rw [lookupPathGo] at h
    exact Except.noConfusion h
  | succ fuel ih =>
    intro compileF stx gsid sid orig cur first ag d r stx' h
    cases cur with
    | nil =>
      rw [lookupPathGo] at h
      exact Except.noConfusion h
    | cons x rest =>
      rw [lookupPathGo] at h
      cases hd : lookupA (getSchema stx sid).decls x with
      | some decl =>
        simp only [hd] at h
        split at h
        · exact Except.noConfusion h
        · split at h
          · obtain ⟨-, hstx⟩ := Prod.mk.injEq _ _ _ _ ▸ Except.ok.inj h
            subst hstx
            exact declsPreserved_refl stx
          · cases hv : decl.value with
            | schema p =>
              simp only [hv] at h
              cases hls : lookupSchema compileF stx sid p with
              | ok pr =>
                obtain ⟨imported, stxm⟩ := pr
                simp only [hls] at h
                exact declsPreserved_trans (lookupSchema_preserves hls)
                  (ih compileF stxm gsid imported.schema orig rest false ag d r stx' h)
              | error e =>
                simp only [hls] at h
                exact Except.noConfusion h
            | typ c =>
              simp only [hv] at h
              obtain ⟨-, hstx⟩ := Prod.mk.injEq _ _ _ _ ▸ Except.ok.inj h
              subst hstx
              exact declsPreserved_refl stx
            | expr e2 =>
              simp only [hv] at h
              obtain ⟨-, hstx⟩ := Prod.mk.injEq _ _ _ _ ▸ Except.ok.inj h
              subst hstx
              exact declsPreserved_refl stx
      | none =>
        simp only [hd] at h
        cases hpar : (getSchema stx sid).parent with
        | some par =>
          simp only [hpar] at h
          exact ih compileF stx gsid par (x :: rest) (x :: rest) true ag d r stx' h
        | none =>
          simp only [hpar] at h
          split at h
          · exact ih compileF stx gsid gsid (x :: rest) (x :: rest) true false d r stx' h
          · exact Except.noConfusion h

theorem lookupPath_preserves {compileF : String → Option Nat} {fuel : Nat}
    {stx : SchemaStore} {gsid sid : Nat} {path : Path} {ag : Bool} {d : Decl} {r : Path}
    {stx' : SchemaStore}
    (h : lookupPath compileF fuel stx gsid sid path ag = .ok ((d, r), stx')) :
    declsPreserved stx stx' := by
  rw [lookupPath] at h
  split at h
  · exact Except.noConfusion h
  · exact lookupPathGo_preserves fuel compileF stx gsid sid path path true ag d r stx' h

theorem rebindDecl_schemas (cst : CState) (d : Decl) :
    (rebindDecl cst d).2.schemas = cst.schemas := by
  rw [rebindDecl]
  cases d.value <;> rfl

theorem importStarLoop_schemas : ∀ (l : List (String × Decl)) (cst : CState)
    (acc : List (String × Bool × SchemaEntry)),
    (importStarLoop cst l acc).2.schemas = cst.schemas := by
  intro l
  induction l with
  | nil => intro cst acc; rfl
  | cons kv rest ih =>
    intro cst acc
    obtain ⟨k, v⟩ := kv
    rw [importStarLoop]
    by_cases hp : v.public = true
    · rw [if_pos hp]
      cases hre : rebindDecl cst v with
      | mk entry cst' =>
        have := rebindDecl_schemas cst v
        rw [hre] at this
        rw [ih cst' _, this]
    · rw [if_neg hp]
      exact ih cst acc

theorem importItemsLoop_preserves : ∀ (items : List Path) (compileF : String → Option Nat)
    (fuel gsid : Nat) (cst : CState) (isid : Nat)
    (acc entries : List (String × Bool × SchemaEntry)) (cst2 : CState),
    importItemsLoop compileF fuel gsid cst isid items acc = .ok (entries, cst2) →
    declsPreserved cst.schemas cst2.schemas ∧ entries.length = acc.length + items.length := by
  intro items
  induction items with
  | nil =>
    intro compileF fuel gsid cst isid acc entries cst2 h
    rw [importItemsLoop] at h
    obtain ⟨hent, hcst⟩ := Prod.mk.injEq _ _ _ _ ▸ Except.ok.inj h
    subst hent
    subst hcst
    exact ⟨declsPreserved_refl _, by simp⟩
  | cons item rest ih =>
    intro compileF fuel gsid cst isid acc entries cst2 h
    rw [importItemsLoop] at h
    split at h
    · exact Except.noConfusion h
    · cases hlp : lookupPath compileF fuel cst.schemas gsid isid item false with
      | error e =>
        simp only [hlp] at h
        exact Except.noConfusion h
      | ok pr =>
        obtain ⟨⟨decl, r⟩, schemas'⟩ := pr
        simp only [hlp] at h
        split at h
        · exact Except.noConfusion h
        · cases hre : rebindDecl { cst with schemas := schemas' } decl with
          | mk entry cstR =>
            simp only [hre] at h
            obtain ⟨hpres, hlen⟩ := ih compileF fuel gsid cstR isid _ entries cst2 h
            have hR : cstR.schemas = schemas' := by
              have := rebindDecl_schemas { cst with schemas := schemas' } decl
              rw [hre] at this
              exact this
            refine ⟨declsPreserved_trans (lookupPath_preserves hlp) (hR ▸ hpres), ?_⟩
            rw [hlen]
            simp
            omega

theorem declareEntries_preserves_weight {compileF : String → Option Nat} {fuel gsid : Nat}
    {cst : CState} {sid : Nat} {body : StmtBody} {exp : Bool}
    {entries : List (String × Bool × SchemaEntry)} {cstE : CState}
    (hns : noStarImport ⟨exp, body⟩ = true)
    (h : declareEntries compileF fuel gsid cst sid body = .ok (entries, cstE)) :
    declsPreserved cst.schemas cstE.schemas ∧ entries.length = stmtWeight ⟨exp, body⟩ := by
  cases body with
  | noop =>
    rw [declareEntries] at h
    obtain ⟨hent, hcst⟩ := Prod.mk.injEq _ _ _ _ ▸ Except.ok.inj h
    subst hent
    subst hcst
    exact ⟨declsPreserved_refl _, rfl⟩
  | exprStmt =>
    rw [declareEntries] at h
    obtain ⟨hent, hcst⟩ := Prod.mk.injEq _ _ _ _ ▸ Except.ok.inj h
    subst hent
    subst hcst
    exact ⟨declsPreserved_refl _, rfl⟩
  | importStmt path list =>
    rw [declareEntries] at h
    cases hls : lookupSchema compileF cst.schemas sid path with
    | error e =>
      simp only [hls] at h
      exact Except.noConfusion h
    | ok pr =>
      obtain ⟨imported, schemas'⟩ := pr
      simp only [hls] at h
      split at h
      · exact Except.noConfusion h
      · cases list with
        | noList =>
          obtain ⟨hent, hcst⟩ := Prod.mk.injEq _ _ _ _ ▸ Except.ok.inj h
          subst hent
          subst hcst
          exact ⟨lookupSchema_preserves hls, rfl⟩
        | star => simp [noStarImport] at hns
        | items items =>
          obtain ⟨hpres, hlen⟩ :=
            importItemsLoop_preserves items compileF fuel gsid
              { cst with schemas := schemas' } imported.schema [] entries cstE h
          refine ⟨declsPreserved_trans (lookupSchema_preserves hls) hpres, ?_⟩
          rw [hlen]
          simp [stmtWeight]
  | typeDef n =>
    rw [declareEntries] at h
    obtain ⟨hent, hcst⟩ := Prod.mk.injEq _ _ _ _ ▸ Except.ok.inj h
    subst hent
    subst hcst
    exact ⟨declsPreserved_refl _, rfl⟩
  | fnDef n =>
    rw [declareEntries] at h
    obtain ⟨hent, hcst⟩ := Prod.mk.injEq _ _ _ _ ▸ Except.ok.inj h
    subst hent
    subst hcst
    exact ⟨declsPreserved_refl _, rfl⟩
  | letStmt n =>
    rw [declareEntries] at h
    obtain ⟨hent, hcst⟩ := Prod.mk.injEq _ _ _ _ ▸ Except.ok.inj h
    subst hent
    subst hcst
    exact ⟨declsPreserved_refl _, rfl⟩
  | extDecl n =>
    rw [declareEntries] at h
    obtain ⟨hent, hcst⟩ := Prod.mk.injEq _ _ _ _ ▸ Except.ok.inj h
    subst hent
    subst hcst
    exact ⟨declsPreserved_refl _, rfl⟩

theorem insertEntries_growth : ∀ (entries : List (String × Bool × SchemaEntry))
    (exported : Bool) (cst : CState) (sid : Nat) (cst' : CState),
    sid < cst.schemas.length →
    insertEntries exported cst sid entries = .ok cst' →
    cst'.schemas.length = cst.schemas.length ∧
      (getSchema cst'.schemas sid).decls.length =
        (getSchema cst.schemas sid).decls.length + entries.length := by
  intro entries
  induction entries with
  | nil =>
    intro exported cst sid cst' _ h
    rw [insertEntries] at h
    have hcst := Except.ok.inj h
    subst hcst
    exact ⟨rfl, by simp⟩
  | cons ent rest ih =>
    intro exported cst sid cst' hlen h
    obtain ⟨n, ext, value⟩ := ent
    rw [insertEntries] at h
    split at h
    · exact Except.noConfusion h
    · set s := getSchema cst.schemas sid with hs
      set cstM : CState := { cst with schemas := (setSchema cst.schemas sid
          { s with decls := s.decls ++ [(n, ⟨exported, ext, n, value⟩)] }) } with hcstM
      have hlenM : sid < cstM.schemas.length := by
        simpa [hcstM, setSchema] using hlen
      obtain ⟨hl, hg⟩ := ih exported cstM sid cst' hlenM h
      have hdeclsM : (getSchema cstM.schemas sid).decls =
          s.decls ++ [(n, ⟨exported, ext, n, value⟩)] := by
        rw [hcstM]
        exact congrArg SchemaObj.decls (getSchema_set_self hlen)
      constructor
      · rw [hl]
        simp [hcstM, setSchema]
      · rw [hg, hdeclsM]
        simp
        omega

/-- C9 (amended): for every source without star imports whose declaration
pass succeeds (so no name is declared twice), the decls map built by Phase A
grows by exactly the number of names the statements introduce: one per
`type`/`fn`/`let`/`extern`/plain-import statement and one per item of an
item-list import (no-ops and bare expressions introduce none). -/
theorem c9_decls_cardinality :
    ∀ (stmts : List Stmt) (compileF : String → Option Nat) (fuel gsid : Nat)
      (cst : CState) (sid : Nat) (cst' : CState),
      (∀ stmt ∈ stmts, noStarImport stmt = true) →
      sid < cst.schemas.length →
      declareSchemaEntries compileF fuel gsid cst sid stmts = .ok cst' →
      (getSchema cst'.schemas sid).decls.length =
        (getSchema cst.schemas sid).decls.length + (stmts.map stmtWeight).sum := by
  intro stmts
  induction stmts with
  | nil =>
    intro compileF fuel gsid cst sid cst' _ _ h
    rw [declareSchemaEntries] at h
    have hcst := Except.ok.inj h
    subst hcst
    simp
  | cons stmt rest ih =>
    intro compileF fuel gsid cst sid cst' hns hlen h
    obtain ⟨exp, body⟩ := stmt
    rw [declareSchemaEntries] at h
    cases hds : declareStmt compileF fuel gsid cst sid ⟨exp, body⟩ with
    | error e =>
      simp only [hds] at h
      exact Except.noConfusion h
    | ok cst1 =>
      simp only [hds] at h
      rw [declareStmt] at hds
      cases hde : declareEntries compileF fuel gsid cst sid body with
      | error e =>
        simp only [hde] at hds
        exact Except.noConfusion hds
      | ok pr =>
        obtain ⟨entries, cstE⟩ := pr
        simp only [hde] at hds
        obtain ⟨hpres, hweight⟩ :=
          declareEntries_preserves_weight (hns ⟨exp, body⟩ (List.mem_cons_self _ _)) hde
        have hlenE : sid < cstE.schemas.length := by
          rw [hpres.1]
          exact hlen
        obtain ⟨hl1, hg1⟩ := insertEntries_growth entries exp cstE sid cst1 hlenE hds
        have hlen1 : sid < cst1.schemas.length := by
          rw [hl1]
          exact hlenE
        have hrest := ih compileF fuel gsid cst1 sid cst'
          (fun s hsm => hns s (List.mem_cons_of_mem _ hsm)) hlen1 h
        rw [hrest, hg1, hpres.2 sid, hweight]
        simp [List.map_cons, List.sum_cons]
        omega

/-- Counterexample to C9 as stated: a source consisting of the single
statement `import p::{a, b}` (which declares no name twice) builds a decls
map of cardinality 2, while the number of declaring statements is 1. -/
theorem c9_decls_cardinality_counterexample :
    isOkE (declareSchemaEntries (fun fp => if fp = "/w/p.co" then some 1 else none) 5 0
        ⟨[], 0, [⟨some "/w", none, [], [], []⟩,
          ⟨none, none, [("a", ⟨true, false, "a", .typ 0⟩), ("b", ⟨true, false, "b", .typ 0⟩)],
            [], []⟩]⟩ 0
        [⟨false, .importStmt ["p"] (.items [["a"], ["b"]])⟩]) = true ∧
      (match declareSchemaEntries (fun fp => if fp = "/w/p.co" then some 1 else none) 5 0
          ⟨[], 0, [⟨some "/w", none, [], [], []⟩,
            ⟨none, none, [("a", ⟨true, false, "a", .typ 0⟩), ("b", ⟨true, false, "b", .typ 0⟩)],
              [], []⟩]⟩ 0
          [⟨false, .importStmt ["p"] (.items [["a"], ["b"]])⟩] with
        | .ok cst' => (getSchema cst'.schemas 0).decls.length
        | .error _ => 0) = 2 ∧
      declaringCount [⟨false, .importStmt ["p"] (.items [["a"], ["b"]])⟩] = 1 ∧
      (2 : Nat) ≠ 1 :=
  ⟨by decide, by decide, by decide, by decide⟩

/-- Witness for C9: a `let` and a `type` statement declare two names; Phase A
builds a decls map of cardinality 2 = 1 + 1. -/
theorem c9_decls_cardinality_witness :
    (∀ stmt ∈ [Stmt.mk false (.letStmt "a"), Stmt.mk false (.typeDef "b")],
        noStarImport stmt = true) ∧
      (0 : Nat) < ([⟨none, none, [], [], []⟩] : SchemaStore).length ∧
      ∃ cst', declareSchemaEntries (fun _ => none) 3 0 ⟨[], 0, [⟨none, none, [], [], []⟩]⟩ 0
          [Stmt.mk false (.letStmt "a"), Stmt.mk false (.typeDef "b")] = .ok cst' ∧
        (getSchema cst'.schemas 0).decls.length =
          (getSchema ([⟨none, none, [], [], []⟩] : SchemaStore) 0).decls.length +
            ([Stmt.mk false (.letStmt "a"), Stmt.mk false (.typeDef "b")].map stmtWeight).sum := by
  refine ⟨by decide, by decide, ?_⟩
  cases hds : declareSchemaEntries (fun _ => none) 3 0 ⟨[], 0, [⟨none, none, [], [], []⟩]⟩ 0
      [Stmt.mk false (.letStmt "a"), Stmt.mk false (.typeDef "b")] with
  | error e =>
    have hok : isOkE (declareSchemaEntries (fun _ => none) 3 0
        ⟨[], 0, [⟨none, none, [], [], []⟩]⟩ 0
        [Stmt.mk false (.letStmt "a"), Stmt.mk false (.typeDef "b")]) = true := by decide
    rw [hds] at hok
    exact absurd hok (by simp [isOkE])
  | ok cst' =>
    exact ⟨cst', rfl,
      c9_decls_cardinality [Stmt.mk false (.letStmt "a"), Stmt.mk false (.typeDef "b")]
        (fun _ => none) 3 0 ⟨[], 0, [⟨none, none, [], [], []⟩]⟩ 0 cst' (by decide) (by decide)
        hds⟩

/-- `MType` of the older schema model in src/qvm/src/schema/mod.rs (lines
35-45).  Its `Ref<MType>` cells are `Rc<RefCell<…>>` values constructed
freshly by `new_global_schema` and never shared there, so they are inlined as
trees; `MField` is the `(name, type, nullable)` triple. -/
inductive OldMType where
  | atom (a : AtomicType)
  | record (fields : List (String × OldMType × Bool))
  | list (inner : OldMType)
  | fn (args : List (String × OldMType × Bool)) (ret : OldMType)
  | name (n : String)
  | unknown
  | ref (inner : OldMType)

/-- `Expr` of src/qvm/src/schema/mod.rs (lines 189-198); the payloads of the
constructors `new_global_schema` does not build are dropped. -/
inductive OldExpr where
  | sqlQuery
  | sqlExpr
  | schemaEntry (debugName : String)
  | fnE
  | fnCall
  | nativeFn (name : String)
  | unknownE

/-- `SType` (mod.rs lines 97-101): the bound-variable `BTreeSet` (the source
field `variables`, a sorted list here) and the body. -/
structure OldSType where
  vars : List String
  body : OldMType

/-- `STypedExpr` (mod.rs lines 269-273). -/
structure OldSTypedExpr where
  type_ : OldSType
  expr : OldExpr

/-- `SchemaEntry` (mod.rs lines 284-289). -/
inductive OldSchemaEntry where
  | schema (path : Path)
  | typ (t : OldMType)
  | expr (e : OldSTypedExpr)

/-- `Decl` (mod.rs lines 295-301); `extern_` is named `isExt`. -/
structure OldDecl where
  public : Bool
  isExt : Bool
  name : String
  value : OldSchemaEntry

/-- `Schema::new_global_schema` (src/qvm/src/schema/mod.rs lines 348-412):
the builtin global scope's decls, as the key/decl pairs passed to
`BTreeMap::from`.  Note that in the source the `name` fields of the decls
under the keys "bool" and "null" are the string "string". -/
def newGlobalSchema : List (String × OldDecl) :=
  [("number", ⟨true, false, "number", .typ (.atom .float64)⟩),
   ("string", ⟨true, false, "string", .typ (.atom .utf8)⟩),
   ("bool", ⟨true, false, "string", .typ (.atom .boolean)⟩),
   ("null", ⟨true, false, "string", .typ (.atom .null)⟩),
   ("load_json", ⟨true, false, "load_json",
     .expr ⟨⟨["R"], .fn [("file", .atom .utf8, false)] (.list (.name "R"))⟩,
       .nativeFn "load_json"⟩⟩)]

/-- C5 (code bug): the global scope contains exactly the public declarations
keyed "number", "string", "bool", "null" and "load_json", binding the atoms
Float64, Utf8, Boolean and Null and the scheme
`∀R. (file: Utf8 non-null) → [R]` with a `NativeFn("load_json")` body — but
the decls stored under "bool" and "null" record the name "string", not the
key they are bound under. -/
theorem c5_global_schema :
    newGlobalSchema.map Prod.fst = ["number", "string", "bool", "null", "load_json"] ∧
      lookupA newGlobalSchema "number" =
        some ⟨true, false, "number", .typ (.atom .float64)⟩ ∧
      lookupA newGlobalSchema "string" =
        some ⟨true, false, "string", .typ (.atom .utf8)⟩ ∧
      lookupA newGlobalSchema "bool" =
        some ⟨true, false, "string", .typ (.atom .boolean)⟩ ∧
      lookupA newGlobalSchema "null" =
        some ⟨true, false, "string", .typ (.atom .null)⟩ ∧
      lookupA newGlobalSchema "load_json" =
        some ⟨true, false, "load_json",
          .expr ⟨⟨["R"], .fn [("file", .atom .utf8, false)] (.list (.name "R"))⟩,
            .nativeFn "load_json"⟩⟩ ∧
      (lookupA newGlobalSchema "bool").map (fun d => d.public) = some true ∧
      (lookupA newGlobalSchema "bool").map (fun d => d.name) = some "string" ∧
      "string" ≠ "bool" :=
  ⟨rfl, rfl, rfl, rfl, rfl, rfl, rfl, rfl, by decide⟩

theorem declareEntriesPreservesDecls {compileF : String → Option Nat} {fuel gsid : Nat}
    {cst : CState} {sid : Nat} {body : StmtBody}
    {entries : List (String × Bool × SchemaEntry)} {cstE : CState}
    (h : declareEntries compileF fuel gsid cst sid body = .ok (entries, cstE)) :
    (getSchema cstE.schemas sid).decls = (getSchema cst.schemas sid).decls := by
  cases body with
  | noop =>
    rw [declareEntries] at h
    obtain ⟨-, hcst⟩ := Prod.mk.injEq _ _ _ _ ▸ Except.ok.inj h
    subst hcst
    rfl
  | exprStmt =>
    rw [declareEntries] at h
    obtain ⟨-, hcst⟩ := Prod.mk.injEq _ _ _ _ ▸ Except.ok.inj h
    subst hcst
    rfl
  | importStmt path list =>
    rw [declareEntries] at h
    cases hls : lookupSchema compileF cst.schemas sid path with
    | error e =>
      simp only [hls] at h
      exact Except.noConfusion h
    | ok pr =>
      obtain ⟨imported, schemas'⟩ := pr
      simp only [hls] at h
      split at h
      · exact Except.noConfusion h
      · have hpres := (lookupSchema_preserves hls).2 sid
        cases list with
        | noList =>
          obtain ⟨-, hcst⟩ := Prod.mk.injEq _ _ _ _ ▸ Except.ok.inj h
          subst hcst
          exact hpres
        | star =>
          cases hsl : importStarLoop { cst with schemas := schemas' }
              (getSchema schemas' imported.schema).decls [] with
          | mk ents cstL =>
            simp only [hsl] at h
            obtain ⟨-, hcst⟩ := Prod.mk.injEq _ _ _ _ ▸ Except.ok.inj h
            subst hcst
            have hschemas := importStarLoop_schemas
              (getSchema schemas' imported.schema).decls { cst with schemas := schemas' } []
            rw [hsl] at hschemas
            rw [hschemas]
            exact hpres
        | items items =>
          have hloop := importItemsLoop_preserves items compileF fuel gsid
            { cst with schemas := schemas' } imported.schema [] entries cstE h
          exact (hloop.1.2 sid).trans hpres
  | typeDef n =>
    rw [declareEntries] at h
    obtain ⟨-, hcst⟩ := Prod.mk.injEq _ _ _ _ ▸ Except.ok.inj h
    subst hcst
    rfl
  | fnDef n =>
    rw [declareEntries] at h
    obtain ⟨-, hcst⟩ := Prod.mk.injEq _ _ _ _ ▸ Except.ok.inj h
    subst hcst
    rfl
  | letStmt n =>
    rw [declareEntries] at h
    obtain ⟨-, hcst⟩ := Prod.mk.injEq _ _ _ _ ▸ Except.ok.inj h
    subst hcst
    rfl
  | extDecl n =>
    rw [declareEntries] at h
    obtain ⟨-, hcst⟩ := Prod.mk.injEq _ _ _ _ ▸ Except.ok.inj h
    subst hcst
    rfl

theorem getSchema_set_cases (stx : SchemaStore) (i : Nat) (s : SchemaObj) :
    getSchema (setSchema stx i s) i = s ∨ getSchema (setSchema stx i s) i = emptySchema := by
  by_cases h : i < stx.length
  · exact Or.inl (getSchema_set_self h)
  · right
    rw [getSchema, setSchema, List.getD_eq_default]
    rw [List.length_set]
    omega

theorem insertEntries_names : ∀ (entries : List (String × Bool × SchemaEntry))
    (exported : Bool) (cst : CState) (sid : Nat) (cst' : CState),
    (∀ p ∈ (getSchema cst.schemas sid).decls, p.2.name = p.1) →
    insertEntries exported cst sid entries = .ok cst' →
    ∀ p ∈ (getSchema cst'.schemas sid).decls, p.2.name = p.1 := by
  intro entries
  induction entries with
  | nil =>
    intro exported cst sid cst' hinv h
    rw [insertEntries] at h
    have hcst := Except.ok.inj h
    subst hcst
    exact hinv
  | cons ent rest ih =>
    intro exported cst sid cst' hinv h
    obtain ⟨n, ext, value⟩ := ent
    rw [insertEntries] at h
    split at h
    · exact Except.noConfusion h
    · refine ih exported _ sid cst' ?_ h
      rcases getSchema_set_cases cst.schemas sid
        { getSchema cst.schemas sid with
          decls := (getSchema cst.schemas sid).decls ++ [(n, ⟨exported, ext, n, value⟩)] } with
        hcase | hcase
      · rw [show (getSchema ((setSchema cst.schemas sid
            { getSchema cst.schemas sid with
              decls := (getSchema cst.schemas sid).decls ++
                [(n, ⟨exported, ext, n, value⟩)] })) sid).decls =
            (getSchema cst.schemas sid).decls ++ [(n, ⟨exported, ext, n, value⟩)] from by
          rw [hcase]]
        intro p hp
        rcases List.mem_append.mp hp with hp' | hp'
        · exact hinv p hp'
        · rw [List.mem_singleton.mp hp']
      · rw [show (getSchema ((setSchema cst.schemas sid
            { getSchema cst.schemas sid with
              decls := (getSchema cst.schemas sid).decls ++
                [(n, ⟨exported, ext, n, value⟩)] })) sid).decls = ([] : List (String × Decl))
            from by rw [hcase]; rfl]
        intro p hp
        simp at hp

/-- C10 (code bug): the declaration pass preserves the invariant that every
decl's `name` equals the key it is stored under (it always inserts
`Decl { name: name, .. }` under `name`), but the builtin global scope of
`new_global_schema` violates it: the decl stored under "null" (and "bool")
records the name "string". -/
theorem c10_decl_name_key :
    (∀ (stmts : List Stmt) (compileF : String → Option Nat) (fuel gsid : Nat)
      (cst : CState) (sid : Nat) (cst' : CState),
      (∀ p ∈ (getSchema cst.schemas sid).decls, p.2.name = p.1) →
      declareSchemaEntries compileF fuel gsid cst sid stmts = .ok cst' →
      ∀ p ∈ (getSchema cst'.schemas sid).decls, p.2.name = p.1) ∧
      (lookupA newGlobalSchema "null").map (fun d => d.name) = some "string" ∧
      "string" ≠ "null" := by
  refine ⟨?_, rfl, by decide⟩
  intro stmts
  induction stmts with
  | nil =>
    intro compileF fuel gsid cst sid cst' hinv h
    rw [declareSchemaEntries] at h
    have hcst := Except.ok.inj h
    subst hcst
    exact hinv
  | cons stmt rest ih =>
    intro compileF fuel gsid cst sid cst' hinv h
    rw [declareSchemaEntries] at h
    cases hds : declareStmt compileF fuel gsid cst sid stmt with
    | error e =>
      simp only [hds] at h
      exact Except.noConfusion h
    | ok cst1 =>
      simp only [hds] at h
      rw [declareStmt] at hds
      cases hde : declareEntries compileF fuel gsid cst sid stmt.body with
      | error e =>
        simp only [hde] at hds
        exact Except.noConfusion hds
      | ok pr =>
        obtain ⟨entries, cstE⟩ := pr
        simp only [hde] at hds
        have hpresE : ∀ p ∈ (getSchema cstE.schemas sid).decls, p.2.name = p.1 := by
          have hpres := declareEntriesPreservesDecls hde
          rw [hpres]
          exact hinv
        exact ih compileF fuel gsid cst1 sid cst'
          (insertEntries_names entries stmt.export_ cstE sid cst1 hpresE hds) h

/-- Witness for C10: declaring `let a` in a fresh scope yields a decls map in
which every decl's name equals its key. -/
theorem c10_decl_name_key_witness :
    (∀ p ∈ (getSchema ([⟨none, none, [], [], []⟩] : SchemaStore) 0).decls, p.2.name = p.1) ∧
      ∃ cst', declareSchemaEntries (fun _ => none) 3 0 ⟨[], 0, [⟨none, none, [], [], []⟩]⟩ 0
          [Stmt.mk false (.letStmt "a")] = .ok cst' ∧
        ∀ p ∈ (getSchema cst'.schemas 0).decls, p.2.name = p.1 := by
  refine ⟨by simp [getSchema, emptySchema], ?_⟩
  cases hds : declareSchemaEntries (fun _ => none) 3 0 ⟨[], 0, [⟨none, none, [], [], []⟩]⟩ 0
      [Stmt.mk false (.letStmt "a")] with
  | error e =>
    have hok : isOkE (declareSchemaEntries (fun _ => none) 3 0
        ⟨[], 0, [⟨none, none, [], [], []⟩]⟩ 0 [Stmt.mk false (.letStmt "a")]) = true := by
      decide
    rw [hds] at hok
    exact absurd hok (by simp [isOkE])
  | ok cst' =>
    exact ⟨cst', rfl,
      c10_decl_name_key.1 [Stmt.mk false (.letStmt "a")] (fun _ => none) 3 0
        ⟨[], 0, [⟨none, none, [], [], []⟩]⟩ 0 cst' (by simp [getSchema, emptySchema]) hds⟩

end QVM
